/-
Verification of the leancrypto DRBG / sponge / hash-AEAD core.

Shallow embedding of the C sources:
  * src/drng/src/kmac_drng.c           (KMAC256 fast-key-erasure DRNG)
  * src/unnamed/part_004               (XDRBG)
  * src/drng/src/chacha20_drng.c       (ChaCha20 DRNG)
  * src/unnamed/part_006               (Keccak ARM asm absorb/squeeze glue)
  * src/unnamed/part_001               (hash-based AEAD, lc_hc_*)

Bytes and 32-bit words are modelled as Nat with explicit masking where the C
code truncates.  Cryptographic primitives that live outside the analysed
sources (KMAC, the XOF, the ChaCha20 block function, the Keccak permutation)
are either universally quantified parameters or modelled from the spec, as
marked on each definition.
-/
import Mathlib

namespace Leancrypto

/-! ### KMAC256 fast-key-erasure DRNG (src/drng/src/kmac_drng.c)

The KMAC primitive itself (SP 800-185 KMACXOF256 over cSHAKE-256) is not part
of the analysed sources.  It is modelled as an absorb transcript together with
a pure byte stream `kstream key cust msg i` giving byte `i` of the XOF output;
successive `lc_kmac_final_xof` calls on one context squeeze successive bytes
of that stream, which is exactly the squeeze-more behaviour the DRNG relies
on. -/

/-- A transient KMAC context: key, customization string, absorbed message and
the number of stream bytes already squeezed. -/
structure KmacCtx where
  key : List Nat
  cust : List Nat
  msg : List Nat
  squeezed : Nat
deriving DecidableEq

/-- `lc_kmac_init(ctx, key, keylen, s, slen)`. -/
def lc_kmac_init (key cust : List Nat) : KmacCtx :=
  { key := key, cust := cust, msg := [], squeezed := 0 }

/-- `lc_kmac_update(ctx, in, inlen)`: absorb data. -/
def lc_kmac_update (ctx : KmacCtx) (data : List Nat) : KmacCtx :=
  { ctx with msg := ctx.msg ++ data }

/-- `lc_kmac_final_xof(ctx, out, outlen)`: squeeze the next `n` bytes of the
XOF stream determined by (key, customization, message). -/
def lc_kmac_final_xof (kstream : List Nat → List Nat → List Nat → Nat → Nat)
    (ctx : KmacCtx) (n : Nat) : KmacCtx × List Nat :=
  ({ ctx with squeezed := ctx.squeezed + n },
   (List.range n).map fun i => kstream ctx.key ctx.cust ctx.msg (ctx.squeezed + i))

/-- `"KMAC-DRNG seed"` (kmac_drng.c line 239), absorbed without trailing NUL. -/
def LC_KMAC_DRNG_SEED_CUSTOMIZATION_STRING : List Nat :=
  "KMAC-DRNG seed".data.map Char.toNat

/-- `"KMAC-DRNG generate"` (kmac_drng.c line 240), absorbed without NUL. -/
def LC_KMAC_DRNG_CTX_CUSTOMIZATION_STRING : List Nat :=
  "KMAC-DRNG generate".data.map Char.toNat

/-- Modelled from the spec: `LC_KMAC256_DRNG_KEYSIZE` lives in the missing
header `lc_kmac256_drng.h`; the spec fixes the key size to 512 bits
(64 bytes). -/
def LC_KMAC256_DRNG_KEYSIZE : Nat := 64

/-- Modelled from the spec: `LC_KMAC256_DRNG_MAX_CHUNK` lives in the missing
header; the spec bounds one chunk to 100 cSHAKE-256 rate blocks
(100 × 136 bytes), a multiple of the rate. -/
def LC_KMAC256_DRNG_MAX_CHUNK : Nat := 100 * 136

/-- `LC_KMAC256_DRNG_ENCODE_LENGTH` (kmac_drng.c line 312). -/
def LC_KMAC256_DRNG_ENCODE_LENGTH : Nat := 84

/-- `lc_kmac256_drng_encode` (kmac_drng.c lines 315-348): clamp alpha to its
84 left-most bytes, absorb it, then absorb the single byte `n·85 + |alpha|`. -/
def lc_kmac256_drng_encode (ctx : KmacCtx) (n : Nat) (alpha : List Nat) :
    KmacCtx :=
  let alphalen := if alpha.length > 84 then 84 else alpha.length
  let encode := (n * 85 + alphalen) % 256
  lc_kmac_update (lc_kmac_update ctx (alpha.take alphalen)) [encode]

/-- The KMAC-DRNG state: the 512-bit key plus the initially-seeded flag. -/
structure KmacDrngState where
  key : List Nat
  initially_seeded : Bool
deriving DecidableEq

/-- Primitive-level events of one DRNG call, in source order: the state key
being overwritten, and output bytes being released to the caller. -/
inductive DrngEvent
  | storeKey (k : List Nat)
  | output (bytes : List Nat)
deriving DecidableEq

/-- `lc_kmac256_drng_fke_init_ctx` (kmac_drng.c lines 368-389): initialize the
transient KMAC with K(N) and the generate customization string, absorb the
encoded additional input, and squeeze the first 512 bits back into the state
key (K(N+1)) before any caller output is produced.  Returns the new state,
the initialized context, and the emitted event. -/
def lc_kmac256_drng_fke_init_ctx
    (kstream : List Nat → List Nat → List Nat → Nat → Nat)
    (state : KmacDrngState) (addtl : List Nat) :
    KmacDrngState × KmacCtx × List DrngEvent :=
  let ctx := lc_kmac_init state.key LC_KMAC_DRNG_CTX_CUSTOMIZATION_STRING
  let ctx := lc_kmac256_drng_encode ctx 2 addtl
  let fin := lc_kmac_final_xof kstream ctx LC_KMAC256_DRNG_KEYSIZE
  ({ state with key := fin.2 }, fin.1, [DrngEvent.storeKey fin.2])

/-- `lc_kmac256_drng_generate` (kmac_drng.c lines 402-441), for a non-null
state: chunked generation; each chunk re-keys the transient context via
`lc_kmac256_drng_fke_init_ctx` (storing K(N+1)) and only then squeezes the
chunk into the caller's buffer.  Returns (final state, output, event trace in
source order). -/
def lc_kmac256_drng_generate_loop
    (kstream : List Nat → List Nat → List Nat → Nat → Nat)
    (state : KmacDrngState) (addtl : List Nat) (outlen : Nat) :
    KmacDrngState × List Nat × List DrngEvent :=
  if h : outlen = 0 then (state, [], [])
  else
    let todo := min outlen (LC_KMAC256_DRNG_MAX_CHUNK - LC_KMAC256_DRNG_KEYSIZE)
    let fke := lc_kmac256_drng_fke_init_ctx kstream state addtl
    let out := lc_kmac_final_xof kstream fke.2.1 todo
    let rest := lc_kmac256_drng_generate_loop kstream fke.1 addtl (outlen - todo)
    (rest.1, out.2 ++ rest.2.1, fke.2.2 ++ DrngEvent.output out.2 :: rest.2.2)
termination_by outlen
decreasing_by
  simp only [LC_KMAC256_DRNG_MAX_CHUNK, LC_KMAC256_DRNG_KEYSIZE] at *
  omega

/-- `lc_kmac256_drng_seed_nocheck` (kmac_drng.c lines 450-495) for a non-null
state: key the transient KMAC with K(N) on a reseed (and with the empty key on
the first seed, also setting `initially_seeded`), absorb the seed, absorb the
encoded personalization string with `n` = the captured initially-seeded flag,
and squeeze the new key into the state.  Returns (new state, events, final
transient context). -/
def lc_kmac256_drng_seed_core
    (kstream : List Nat → List Nat → List Nat → Nat → Nat)
    (state : KmacDrngState) (seed pers : List Nat) :
    KmacDrngState × List DrngEvent × KmacCtx :=
  let initially_seeded := state.initially_seeded
  let seeded :=
    if initially_seeded then
      (state, lc_kmac_init state.key LC_KMAC_DRNG_SEED_CUSTOMIZATION_STRING)
    else
      ({ state with initially_seeded := true },
       lc_kmac_init [] LC_KMAC_DRNG_SEED_CUSTOMIZATION_STRING)
  let ctx := lc_kmac_update seeded.2 seed
  let ctx := lc_kmac256_drng_encode ctx (if initially_seeded then 1 else 0) pers
  let fin := lc_kmac_final_xof kstream ctx LC_KMAC256_DRNG_KEYSIZE
  ({ seeded.1 with key := fin.2 }, [DrngEvent.storeKey fin.2], fin.1)

/-- Marker for a C null-pointer dereference (undefined behaviour). -/
inductive CDeref
  | nullDeref
deriving DecidableEq

/-- `lc_kmac256_drng_seed_nocheck` (kmac_drng.c lines 450-495) with its
null-state behaviour: line 455 initializes a local from
`state->initially_seeded` BEFORE the `if (!state)` test at line 459, so a null
state is dereferenced and the -EINVAL return is unreachable. -/
def lc_kmac256_drng_seed_nocheck
    (kstream : List Nat → List Nat → List Nat → Nat → Nat)
    (ostate : Option KmacDrngState) (seed pers : List Nat) :
    Except CDeref (Int × KmacDrngState) :=
  match ostate with
  | none => Except.error CDeref.nullDeref
  | some st => Except.ok (0, (lc_kmac256_drng_seed_core kstream st seed pers).1)

/-! ### XDRBG (src/unnamed/part_004)

The underlying XOF (SHAKE via `lc_hash_*`) is likewise not part of the
analysed sources; it is modelled as an absorb transcript plus a pure byte
stream `xstream msg i`.  The state's `status`-derived key size and chunk size
are carried as explicit fields. -/

/-- A transient XOF (`lc_hash_ctx`) context: absorbed message plus number of
stream bytes already squeezed (`lc_hash_final` on a XOF continues the
stream). -/
structure XofCtx where
  msg : List Nat
  squeezed : Nat
deriving DecidableEq

/-- `lc_hash_init`. -/
def lc_hash_init_xof : XofCtx := { msg := [], squeezed := 0 }

/-- `lc_hash_update`. -/
def lc_hash_update_xof (ctx : XofCtx) (data : List Nat) : XofCtx :=
  { ctx with msg := ctx.msg ++ data }

/-- `lc_xdrbg_xof_final` (part_004 lines 58-63): set the digest size and
squeeze the next `n` stream bytes. -/
def lc_xdrbg_xof_final (xstream : List Nat → Nat → Nat) (ctx : XofCtx)
    (n : Nat) : XofCtx × List Nat :=
  ({ ctx with squeezed := ctx.squeezed + n },
   (List.range n).map fun i => xstream ctx.msg (ctx.squeezed + i))

/-- `LC_XDRBG_DRNG_ENCODE_N` (part_004 line 67). -/
def LC_XDRBG_DRNG_ENCODE_N (x : Nat) : Nat := x * 85

/-- `lc_xdrbg_drng_encode` (part_004 lines 75-109): clamp alpha to its 84
left-most bytes, absorb it, then absorb the single byte `n + |alpha|` (the
caller passes `n` already multiplied by 85). -/
def lc_xdrbg_drng_encode (ctx : XofCtx) (n : Nat) (alpha : List Nat) :
    XofCtx :=
  let alphalen := if alpha.length > 84 then 84 else alpha.length
  let encode := (n + alphalen) % 256
  lc_hash_update_xof (lc_hash_update_xof ctx (alpha.take alphalen)) [encode]

/-- The XDRBG state.  The C state carries a `status` byte from which
`lc_xdrbg_keysize` derives the key size and a separate `chunksize`; here the
derived key size and the chunk size are explicit fields and the
initially-seeded status bit is a Bool. -/
structure XdrbgState where
  v : List Nat
  initially_seeded : Bool
  keysize : Nat
  chunksize : Nat
deriving DecidableEq

/-- `lc_xdrbg_drng_fke_init_ctx` (part_004 lines 126-147): initialize the XOF,
absorb V' (keysize bytes), absorb the encoded alpha with n = 2·85, and squeeze
keysize bytes back into the state's V before any caller output is produced. -/
def lc_xdrbg_drng_fke_init_ctx (xstream : List Nat → Nat → Nat)
    (keysize : Nat) (v alpha : List Nat) :
    List Nat × XofCtx × List DrngEvent :=
  let ctx := lc_hash_init_xof
  let ctx := lc_hash_update_xof ctx (v.take keysize)
  let ctx := lc_xdrbg_drng_encode ctx (LC_XDRBG_DRNG_ENCODE_N 2) alpha
  let fin := lc_xdrbg_xof_final xstream ctx keysize
  (fin.2, fin.1, [DrngEvent.storeKey fin.2])

/-- The generate loop of `lc_xdrbg_drng_generate` (part_004 lines 165-203) for
a non-null state: chunked generation, each chunk re-keying via
`lc_xdrbg_drng_fke_init_ctx` (storing the new V) before squeezing the chunk
into the caller's buffer. -/
def lc_xdrbg_drng_generate_loop (xstream : List Nat → Nat → Nat)
    (keysize chunksize : Nat) (hcs : 0 < chunksize) (v alpha : List Nat)
    (outlen : Nat) : List Nat × List Nat × List DrngEvent :=
  if h : outlen = 0 then (v, [], [])
  else
    let todo := min outlen chunksize
    let fke := lc_xdrbg_drng_fke_init_ctx xstream keysize v alpha
    let out := lc_xdrbg_xof_final xstream fke.2.1 todo
    let rest := lc_xdrbg_drng_generate_loop xstream keysize chunksize hcs
      fke.1 alpha (outlen - todo)
    (rest.1, out.2 ++ rest.2.1, fke.2.2 ++ DrngEvent.output out.2 :: rest.2.2)
termination_by outlen
decreasing_by omega

/-- `lc_xdrbg_drng_generate` on an `XdrbgState`. -/
def lc_xdrbg_drng_generate (xstream : List Nat → Nat → Nat)
    (state : XdrbgState) (hcs : 0 < state.chunksize) (alpha : List Nat)
    (outlen : Nat) : XdrbgState × List Nat × List DrngEvent :=
  let r := lc_xdrbg_drng_generate_loop xstream state.keysize state.chunksize
    hcs state.v alpha outlen
  ({ state with v := r.1 }, r.2.1, r.2.2)

/-- `lc_xdrbg_drng_seed_nocheck` (part_004 lines 221-262) for a non-null
state: absorb V' only on a reseed (setting the initially-seeded bit on the
first seed), absorb the seed, absorb the encoded alpha with
n = 85·initially_seeded, and squeeze the new V into the state.  Returns (new
state, events, final transient context). -/
def lc_xdrbg_drng_seed_core (xstream : List Nat → Nat → Nat)
    (state : XdrbgState) (seed alpha : List Nat) :
    XdrbgState × List DrngEvent × XofCtx :=
  let initially_seeded := state.initially_seeded
  let ctx := lc_hash_init_xof
  let seeded :=
    if initially_seeded then
      (state, lc_hash_update_xof ctx (state.v.take state.keysize))
    else
      ({ state with initially_seeded := true }, ctx)
  let ctx := lc_hash_update_xof seeded.2 seed
  let ctx := lc_xdrbg_drng_encode ctx
    (LC_XDRBG_DRNG_ENCODE_N (if initially_seeded then 1 else 0)) alpha
  let fin := lc_xdrbg_xof_final xstream ctx state.keysize
  ({ seeded.1 with v := fin.2 }, [DrngEvent.storeKey fin.2], fin.1)

/-- `lc_xdrbg_drng_seed_nocheck` (part_004 lines 221-262) with its null-state
behaviour: the function performs no null check at all; its first action,
`lc_xdrbg_keysize(state)` in the initializer at line 226, reads
`state->status`, so a null state is dereferenced. -/
def lc_xdrbg_drng_seed_nocheck (xstream : List Nat → Nat → Nat)
    (ostate : Option XdrbgState) (seed alpha : List Nat) :
    Except CDeref (Int × XdrbgState) :=
  match ostate with
  | none => Except.error CDeref.nullDeref
  | some st => Except.ok (0, (lc_xdrbg_drng_seed_core xstream st seed alpha).1)

/-- Fast-key-erasure trace shape: the trace is a sequence of chunks, each a
`storeKey` immediately followed by an `output`; in particular every byte of
output is released only after the state key was overwritten. -/
def fkeAlternates : List DrngEvent → Bool
  | [] => true
  | DrngEvent.storeKey _ :: DrngEvent.output _ :: rest => fkeAlternates rest
  | _ => false

/-! ### ChaCha20 DRNG (src/drng/src/chacha20_drng.c)

The ChaCha20 state is modelled at the 32-bit-word level: the key half
(`key.u`, 8 words) and the four counter words, where `counter[0]` is the block
counter and `counter[1..3]` are the nonce words.  The constants half never
changes and is omitted.  The keystream produced by one block operation is an
arbitrary pure function `blockWords` of the state; the byte-swap applied on
big-endian hosts is an arbitrary word function `bswap32`. -/

/-- `LC_CC20_KEY_SIZE_WORDS`. -/
def LC_CC20_KEY_SIZE_WORDS : Nat := 8

/-- `LC_CC20_BLOCK_SIZE_WORDS`. -/
def LC_CC20_BLOCK_SIZE_WORDS : Nat := 16

/-- The ChaCha20 DRNG state (word view). -/
structure CC20State where
  key : List Nat
  counter0 : Nat
  counter1 : Nat
  counter2 : Nat
  counter3 : Nat
deriving DecidableEq

/-- Modelled from the spec: `cc20_block` (lc_chacha20_private.h, not under
src/) produces one keystream block as a pure function of the state and
advances the 32-bit block counter `counter[0]` by one; the generate loop of
chacha20_drng.c calls it once per 64-byte block with no other counter
management, and the comment above `lc_cc20_drng_generate` (lines 152-158)
relies on exactly this per-block increment of the 32-bit counter. -/
def cc20_block (blockWords : CC20State → List Nat) (st : CC20State) :
    List Nat × CC20State :=
  (blockWords st, { st with counter0 := (st.counter0 + 1) % 2 ^ 32 })

/-- The deterministic nonce increment of `lc_cc20_drng_update`
(chacha20_drng.c lines 94-100): `counter[1]++` with carry into `counter[2]`
and then `counter[3]`. -/
def cc20_inc_nonce (st : CC20State) : CC20State :=
  let c1 := (st.counter1 + 1) % 2 ^ 32
  let st2 := { st with counter1 := c1 }
  if c1 = 0 then
    let c2 := (st2.counter2 + 1) % 2 ^ 32
    let st3 := { st2 with counter2 := c2 }
    if c2 = 0 then { st3 with counter3 := (st3.counter3 + 1) % 2 ^ 32 }
    else st3
  else st2

/-- `lc_cc20_drng_update` (chacha20_drng.c lines 70-103) for a non-null
context: when more than the key-size worth of the last block was consumed,
generate a fresh block (advancing the block counter) and XOR it into the key
words; otherwise XOR the unused tail words `buf[used_words..used_words+7]`
into the key.  Then increment the nonce words `counter[1..3]` once with carry
propagation; `counter[0]` itself is never written by this function. -/
def lc_cc20_drng_update (blockWords : CC20State → List Nat)
    (bswap32 : Nat → Nat) (st : CC20State) (buf : List Nat)
    (used_words : Nat) : CC20State :=
  let st1 :=
    if used_words > LC_CC20_KEY_SIZE_WORDS then
      let blk := cc20_block blockWords st
      { blk.2 with key := (List.range LC_CC20_KEY_SIZE_WORDS).map fun i =>
          ((blk.2.key.getD i 0) ^^^ bswap32 (blk.1.getD i 0)) % 2 ^ 32 }
    else
      { st with key := (List.range LC_CC20_KEY_SIZE_WORDS).map fun i =>
          ((st.key.getD i 0) ^^^ bswap32 (buf.getD (i + used_words) 0)) %
            2 ^ 32 }
  cc20_inc_nonce st1

/-- The nonce words `counter[1..3]` read as one little-endian 96-bit value. -/
def cc20_nonce96 (st : CC20State) : Nat :=
  st.counter1 + 2 ^ 32 * st.counter2 + 2 ^ 64 * st.counter3

/-- A concrete ChaCha20 DRNG state with a wrapping first nonce word, used to
evaluate the update at a carry boundary. -/
def cc20WitnessState : CC20State :=
  { key := List.replicate 8 0, counter0 := 7, counter1 := 2 ^ 32 - 1, counter2 := 5, counter3 := 0 }

/-! ### Keccak ARM asm absorb/squeeze glue (src/unnamed/part_006)

The sponge state is modelled through its little-endian byte view: the 200
bytes of `uint64_t A[25]`.  The byte-extraction loop of the squeeze glue
(`state[word] >> byte`) reads exactly byte `i` of this view, and
`state[blocksize-1] ^= 0x80` is a byte-view XOR.  The Keccak permutation is an
arbitrary parameter `keccakf`; the ASM bulk absorb and squeeze routines are
not under src/ and are modelled from the spec as noted. -/

/-- The `lc_sha3_*_state` fields used by the glue (part_006): byte view of the
lanes, rate, padding byte, absorbed-byte counter, squeeze flag, intra-block
offset and requested digest size. -/
structure Sha3State where
  state : List Nat
  r : Nat
  padding : Nat
  msg_len : Nat
  squeeze_more : Bool
  offset : Nat
  digestsize : Nat
deriving DecidableEq

/-- XOR a byte into the state byte view at index `i`. -/
def xorByteAt (l : List Nat) (i b : Nat) : List Nat :=
  l.set i ((l.getD i 0) ^^^ b)

/-- Modelled from the spec: `sha3_fill_state_bytes` (sha3 common code, not
under src/) XORs the input bytes into the sponge state starting at the given
byte offset — the spec's byte-level `sponge_add_bytes`. -/
def sha3_fill_state_bytes (lanes : List Nat) (inp : List Nat) (off : Nat) :
    List Nat :=
  match inp with
  | [] => lanes
  | b :: bs => sha3_fill_state_bytes (xorByteAt lanes off b) bs (off + 1)

/-- Modelled from the spec: the ASM bulk absorb
(`lc_keccak_absorb_arm_asm/_ce`, not under src/) absorbs whole rate-sized
blocks (XOR, then permute) and returns the remaining input, which the glue
stashes as the partial block. -/
def lc_keccak_absorb_asm (keccakf : List Nat → List Nat) (r : Nat)
    (hr : 0 < r) (lanes : List Nat) (inp : List Nat) : List Nat × List Nat :=
  if h : inp.length < r then (lanes, inp)
  else
    lc_keccak_absorb_asm keccakf r hr
      (keccakf (sha3_fill_state_bytes lanes (inp.take r) 0)) (inp.drop r)
termination_by inp.length
decreasing_by simp only [List.length_drop]; omega

/-- `keccak_arm_asm_absorb_internal` (part_006 lines 45-106) for a non-null
state: clear `squeeze_more`, account the new bytes in `msg_len`, complete a
stored partial block (permuting when it fills), bulk-absorb whole blocks and
stash the residual bytes in the partial block. -/
def keccak_arm_asm_absorb_internal (keccakf : List Nat → List Nat)
    (ctx : Sha3State) (hr : 0 < ctx.r) (inp : List Nat) : Sha3State :=
  let blocksize := ctx.r
  let partialb := ctx.msg_len % blocksize
  let ctx1 :=
    { ctx with squeeze_more := false, msg_len := ctx.msg_len + inp.length }
  if partialb ≠ 0 then
    let todo := blocksize - partialb
    if inp.length < todo then
      { ctx1 with state := sha3_fill_state_bytes ctx1.state inp partialb }
    else
      let lanes1 :=
        keccakf (sha3_fill_state_bytes ctx1.state (inp.take todo) partialb)
      let rest := inp.drop todo
      let bulk :=
        if rest.length ≥ blocksize then
          lc_keccak_absorb_asm keccakf blocksize hr lanes1 rest
        else (lanes1, rest)
      { ctx1 with state := sha3_fill_state_bytes bulk.1 bulk.2 0 }
  else
    let bulk :=
      if inp.length ≥ blocksize then
        lc_keccak_absorb_asm keccakf blocksize hr ctx1.state inp
      else (ctx1.state, inp)
    { ctx1 with state := sha3_fill_state_bytes bulk.1 bulk.2 0 }

/-- Recursion core of the ASM squeeze, structurally recursive on a step bound
(`fuel`); every step emits at least one byte for a positive rate, so
`fuel = len` steps always suffice and the zero-fuel fallback is unreachable
from the wrapper below. -/
def keccak_squeeze_go (keccakf : List Nat → List Nat) (r : Nat) :
    Nat → List Nat → Nat → List Nat × List Nat
  | 0, lanes, _ => (lanes, [])
  | fuel + 1, lanes, len =>
    if len = 0 then (lanes, [])
    else if len ≤ r then (lanes, lanes.take len)
    else
      let next := keccak_squeeze_go keccakf r fuel (keccakf lanes) (len - r)
      (next.1, lanes.take r ++ next.2)

/-- Modelled from the spec: the ASM squeeze (`lc_keccak_squeeze_arm_asm/_ce`,
not under src/) "first outputs the state followed by a permutation" (glue
comments, part_006 lines 186-203): it extracts the current block, permuting
between blocks but not after the last extracted bytes, so the glue's lazy
pre-permutation on the next call continues the stream. -/
def lc_keccak_squeeze_asm (keccakf : List Nat → List Nat) (r : Nat)
    (lanes : List Nat) (len : Nat) : List Nat × List Nat :=
  keccak_squeeze_go keccakf r len lanes len

/-- `keccak_arm_asm_squeeze_internal` (part_006 lines 108-219): on the first
squeeze (`squeeze_more` unset) inject the padding byte at `msg_len % rate`,
apply an extra permutation only when the padding byte collides with the final
bit (`padding ≥ 0x80` at the last byte), XOR 0x80 into byte `rate-1`, permute
and set `squeeze_more`; then deliver bytes byte-wise from the current block at
`offset`, lazily permuting when a previous squeeze consumed the whole block,
finishing with the bulk squeeze and the new intra-block `offset`.  Returns
(new state, output bytes). -/
def keccak_arm_asm_squeeze_internal (keccakf : List Nat → List Nat)
    (ctx : Sha3State) : Sha3State × List Nat :=
  let digest_len := ctx.digestsize
  let blocksize := ctx.r
  let squeeze_more := ctx.squeeze_more
  let ctx1 :=
    if ¬ ctx.squeeze_more then
      let partialb := ctx.msg_len % blocksize
      let lanes := sha3_fill_state_bytes ctx.state [ctx.padding] partialb
      let lanes :=
        if ctx.padding ≥ 0x80 ∧ partialb = blocksize - 1 then keccakf lanes
        else lanes
      let lanes := xorByteAt lanes (blocksize - 1) 0x80
      let lanes := keccakf lanes
      { ctx with state := lanes, squeeze_more := true }
    else ctx
  if ctx1.offset ≠ 0 then
    let todo := min digest_len (blocksize - ctx1.offset)
    let digest_len2 := digest_len - todo
    let outA := (ctx1.state.drop ctx1.offset).take todo
    let off1 := (ctx1.offset + todo) % blocksize
    let ctx2 := { ctx1 with offset := off1 }
    if digest_len2 = 0 then (ctx2, outA)
    else
      let sq := lc_keccak_squeeze_asm keccakf blocksize (keccakf ctx2.state)
        digest_len2
      let dl := (digest_len2 + off1) % blocksize
      ({ ctx2 with state := sq.1, offset := off1 + dl }, outA ++ sq.2)
  else
    let lanes0 := if squeeze_more then keccakf ctx1.state else ctx1.state
    let sq := lc_keccak_squeeze_asm keccakf blocksize lanes0 digest_len
    let dl := digest_len % blocksize
    ({ ctx1 with state := sq.1, offset := dl }, sq.2)

/-- A 200-byte all-zero Keccak byte state. -/
def keccakZeroLanes : List Nat := List.replicate 200 0

/-- A permutation stand-in that visibly changes every byte, used to make
state changes observable in concrete evaluations. -/
def bumpPerm : List Nat → List Nat := fun l => l.map fun b => (b + 1) % 256

/-- A concrete squeezing-phase state with rate 4 (update-after-squeeze
evaluation). -/
def sha3C5State : Sha3State :=
  { state := keccakZeroLanes, r := 4, padding := 0x1f, msg_len := 8,
    squeeze_more := true, offset := 0, digestsize := 4 }

/-- A concrete squeezing-phase SHAKE-256-rate state at intra-block offset 0,
requesting 0 output bytes. -/
def sha3C9State : Sha3State :=
  { state := keccakZeroLanes, r := 136, padding := 0x1f, msg_len := 0,
    squeeze_more := true, offset := 0, digestsize := 0 }

/-- The same state requesting one full rate block. -/
def sha3C9StateFull : Sha3State :=
  { state := keccakZeroLanes, r := 136, padding := 0x1f, msg_len := 0,
    squeeze_more := true, offset := 0, digestsize := 136 }

/-- A concrete absorbing-phase state (finalize-transition evaluation). -/
def sha3C4State : Sha3State :=
  { state := keccakZeroLanes, r := 4, padding := 0x06, msg_len := 6,
    squeeze_more := false, offset := 0, digestsize := 10 }

/-! ### Hash-based AEAD (src/unnamed/part_001, lc_hc_*)

The cryptor is built on a hash-parameterized DRBG (keystream) and HMAC
(authentication), neither of which is under src/.  They are universally
quantified parameters, collected in `HcPrims`:
`gen` is `lc_rng_generate` on the embedded DRBG state (with NULL additional
input, as the cryptor always passes), `seedF` is `lc_rng_seed` on the freshly
zeroed DRBG state, `mac` maps the HMAC key and the absorbed transcript to the
digest, `dsz` is the bound hash's digest size, and `B` is
`LC_HC_KEYSTREAM_BLOCK`.  Keystream bytes beyond the buffer are never read by
the C code (`keystream_ptr + todo ≤ B` always); the model uses `getD` with
default 0, matching any in-bounds execution. -/

/-- `LC_SHA_MAX_SIZE_DIGEST` (part_001 line 339). -/
def LC_SHA_MAX_SIZE_DIGEST : Nat := 64

/-- The primitives the hash-AEAD is parameterized over. -/
structure HcPrims where
  gen : List Nat → Nat → List Nat × List Nat
  seedF : List Nat → List Nat → List Nat
  mac : List Nat → List Nat → List Nat
  dsz : Nat
  B : Nat

/-- The keystream-generator half of `struct lc_hc_cryptor`: the DRBG state,
the keystream buffer and `keystream_ptr`. -/
structure KsState where
  drbg : List Nat
  keystream : List Nat
  keystream_ptr : Nat
deriving DecidableEq

/-- The keystream refresh inside `lc_hc_crypt` (part_001 lines 304-312):
when the buffer is exhausted, generate a fresh block and reset the pointer. -/
def hcRegen (P : HcPrims) (st : KsState) : KsState :=
  if st.keystream_ptr ≥ P.B then
    { drbg := (P.gen st.drbg P.B).1, keystream := (P.gen st.drbg P.B).2,
      keystream_ptr := 0 }
  else st

/-- Recursion core of `lc_hc_crypt` (part_001 lines 293-328), structurally
recursive on a step bound: each loop iteration refreshes the keystream if
needed, XORs `todo = min(min(len, B), B - ptr)` input bytes with the
keystream at `keystream_ptr` into the output, and advances.  Every iteration
consumes at least one byte for a positive `B`, so `fuel = len` steps always
suffice and the zero-fuel fallback is unreachable from the wrapper below. -/
def lc_hc_crypt_go (P : HcPrims) :
    Nat → KsState → List Nat → KsState × List Nat
  | 0, st, _ => (st, [])
  | fuel + 1, st, inp =>
    if inp = [] then (st, [])
    else
      let st1 := hcRegen P st
      let todo := min (min inp.length P.B) (P.B - st1.keystream_ptr)
      let outChunk := (List.range todo).map fun i =>
        (inp.getD i 0) ^^^ (st1.keystream.getD (st1.keystream_ptr + i) 0)
      let rest := lc_hc_crypt_go P fuel
        { st1 with keystream_ptr := st1.keystream_ptr + todo } (inp.drop todo)
      (rest.1, outChunk ++ rest.2)

/-- `lc_hc_crypt` (part_001 lines 293-328). -/
def lc_hc_crypt (P : HcPrims) (st : KsState) (inp : List Nat) :
    KsState × List Nat :=
  lc_hc_crypt_go P inp.length st inp

/-- Byte-at-a-time characterization of `lc_hc_crypt`, used as proof
vehicle: refresh if needed, XOR one byte, advance the pointer. -/
def hcByteCrypt (P : HcPrims) : KsState → List Nat → KsState × List Nat
  | st, [] => (st, [])
  | st, b :: bs =>
    let st1 := hcRegen P st
    let ob := b ^^^ st1.keystream.getD st1.keystream_ptr 0
    let rest := hcByteCrypt P
      { st1 with keystream_ptr := st1.keystream_ptr + 1 } bs
    (rest.1, ob :: rest.2)

/-- `struct lc_hc_cryptor` as seen by the AEAD operations: keystream state,
the HMAC key installed by setkey, and the bytes absorbed into the HMAC
(AAD and ciphertext). -/
structure HcCryptor where
  ksst : KsState
  authKey : List Nat
  transcript : List Nat
deriving DecidableEq

/-- `lc_hc_setkey_nocheck` (part_001 lines 250-282): reject a missing or
empty key (-EINVAL, modelled as `none`); otherwise seed the DRBG from
(key, iv), draw `LC_SHA_MAX_SIZE_DIGEST` bytes as the HMAC key, then draw the
first keystream block and reset `keystream_ptr`. -/
def lc_hc_setkey_nocheck (P : HcPrims) (key iv : List Nat) :
    Option HcCryptor :=
  if key = [] then none
  else
    let drbg0 := P.seedF key iv
    let g1 := P.gen drbg0 LC_SHA_MAX_SIZE_DIGEST
    let g2 := P.gen g1.1 P.B
    some { ksst := { drbg := g2.1, keystream := g2.2, keystream_ptr := 0 },
           authKey := g1.2, transcript := [] }

/-- `lc_hc_add_aad` (part_001 lines 330-337): absorb AAD into the HMAC. -/
def lc_hc_add_aad (hc : HcCryptor) (aad : List Nat) : HcCryptor :=
  { hc with transcript := hc.transcript ++ aad }

/-- `lc_hc_encrypt` (part_001 lines 365-378): encrypt, then absorb the
ciphertext into the HMAC (encrypt-then-MAC). -/
def lc_hc_encrypt (P : HcPrims) (hc : HcCryptor) (pt : List Nat) :
    HcCryptor × List Nat :=
  let c := lc_hc_crypt P hc.ksst pt
  ({ hc with ksst := c.1, transcript := hc.transcript ++ c.2 }, c.2)

/-- `lc_hc_decrypt` (part_001 lines 380-392): absorb the ciphertext into the
HMAC, then decrypt. -/
def lc_hc_decrypt (P : HcPrims) (hc : HcCryptor) (ct : List Nat) :
    HcCryptor × List Nat :=
  let hc1 := { hc with transcript := hc.transcript ++ ct }
  let c := lc_hc_crypt P hc1.ksst ct
  ({ hc1 with ksst := c.1 }, c.2)

/-- `lc_hc_encrypt_tag` (part_001 lines 341-363): guard against a digest
size beyond the maximum (returns without writing, modelled as `[]`), then
emit the HMAC digest truncated to `taglen` when `taglen < digestsize`. -/
def lc_hc_encrypt_tag (P : HcPrims) (hc : HcCryptor) (taglen : Nat) :
    List Nat :=
  if LC_SHA_MAX_SIZE_DIGEST < P.dsz then []
  else if taglen < P.dsz then (P.mac hc.authKey hc.transcript).take taglen
  else P.mac hc.authKey hc.transcript

/-- `lc_hc_encrypt_oneshot` (part_001 lines 394-409): AAD, encrypt, tag. -/
def lc_hc_encrypt_oneshot (P : HcPrims) (hc : HcCryptor) (pt aad : List Nat)
    (taglen : Nat) : HcCryptor × List Nat × List Nat :=
  let hc1 := lc_hc_add_aad hc aad
  let e := lc_hc_encrypt P hc1 pt
  (e.1, e.2, lc_hc_encrypt_tag P e.1 taglen)

/-- `lc_hc_decrypt_authenticate` (part_001 lines 411-430): -EINVAL for an
oversized tag, else recompute the tag over the processed data and compare the
first `taglen` bytes in constant time; mismatch yields -EBADMSG. -/
def lc_hc_decrypt_authenticate (P : HcPrims) (hc : HcCryptor)
    (tag : List Nat) (taglen : Nat) : Int :=
  if taglen > LC_SHA_MAX_SIZE_DIGEST then -22
  else if (lc_hc_encrypt_tag P hc taglen).take taglen = tag.take taglen then 0
  else -74

/-- `lc_hc_decrypt_oneshot` (part_001 lines 432-456): AAD, then decrypt into
the caller's output buffer FIRST (for constant time between passing and
failing decryptions), then authenticate; the decrypted bytes are returned to
the caller unconditionally. -/
def lc_hc_decrypt_oneshot (P : HcPrims) (hc : HcCryptor)
    (ct aad tag : List Nat) (taglen : Nat) : Int × HcCryptor × List Nat :=
  let hc1 := lc_hc_add_aad hc aad
  let d := lc_hc_decrypt P hc1 ct
  (lc_hc_decrypt_authenticate P d.1 tag taglen, d.1, d.2)

/-- The streamed encryption path of `_lc_hash_aead` (part_001 lines 491-503):
`enc_init` (= `lc_hc_add_aad`), a fold of `enc_update` (= `lc_hc_encrypt`)
over the caller's chunks, then `enc_final` (= `lc_hc_encrypt_tag`). -/
def lc_hc_streamed_encrypt (P : HcPrims) (hc : HcCryptor) (aad : List Nat)
    (chunks : List (List Nat)) (taglen : Nat) :
    HcCryptor × List Nat × List Nat :=
  let hc1 := lc_hc_add_aad hc aad
  let r := chunks.foldl (fun acc c =>
      let e := lc_hc_encrypt P acc.1 c
      (e.1, acc.2 ++ e.2)) (hc1, ([] : List Nat))
  (r.1, r.2, lc_hc_encrypt_tag P r.1 taglen)

/-! #### Byte-addressed memory model for the in-place paths

`lc_hc_crypt` takes raw `in`/`out` pointers and skips the `memcpy` when they
are equal (part_001 line 317); to reason about aliasing the loop is also
modelled against a byte-addressed memory `Nat → Nat`. -/

/-- Write one byte. -/
def memWrite (m : Nat → Nat) (a v : Nat) : Nat → Nat :=
  fun x => if x = a then v else m x

/-- Read `len` bytes starting at `off`. -/
def memRegion (m : Nat → Nat) (off len : Nat) : List Nat :=
  (List.range len).map fun i => m (off + i)

/-- `memcpy(out, in, n)`: ascending byte-wise copy. -/
def memcpyBytes (m : Nat → Nat) (dst src : Nat) : Nat → (Nat → Nat)
  | 0 => m
  | n + 1 =>
    memWrite (memcpyBytes m dst src n) (dst + n)
      (memcpyBytes m dst src n (src + n))

/-- `xor_64(out, keystream + ptr, n)`: ascending byte-wise
`out[i] ^= ks[ptr+i]`. -/
def xorBytes (m : Nat → Nat) (dst : Nat) (ks : List Nat) (ptr : Nat) :
    Nat → (Nat → Nat)
  | 0 => m
  | n + 1 =>
    memWrite (xorBytes m dst ks ptr n) (dst + n)
      ((xorBytes m dst ks ptr n (dst + n)) ^^^ ks.getD (ptr + n) 0)

/-- Recursion core of `lc_hc_crypt` against the memory model: per chunk,
`memcpy` only when the buffers differ (the source's `if (in != out)`), then
XOR the keystream in place. -/
def lc_hc_crypt_mem_go (P : HcPrims) :
    Nat → KsState → (Nat → Nat) → Nat → Nat → Nat → KsState × (Nat → Nat)
  | 0, st, m, _, _, _ => (st, m)
  | fuel + 1, st, m, inOff, outOff, len =>
    if len = 0 then (st, m)
    else
      let st1 := hcRegen P st
      let todo := min (min len P.B) (P.B - st1.keystream_ptr)
      let m1 := if inOff ≠ outOff then memcpyBytes m outOff inOff todo else m
      let m2 := xorBytes m1 outOff st1.keystream st1.keystream_ptr todo
      lc_hc_crypt_mem_go P fuel
        { st1 with keystream_ptr := st1.keystream_ptr + todo } m2
        (inOff + todo) (outOff + todo) (len - todo)

/-- `lc_hc_crypt` against the memory model. -/
def lc_hc_crypt_mem (P : HcPrims) (st : KsState) (m : Nat → Nat)
    (inOff outOff len : Nat) : KsState × (Nat → Nat) :=
  lc_hc_crypt_mem_go P len st m inOff outOff len

/-- `lc_hc_encrypt` against the memory model: crypt, then absorb the
ciphertext region into the HMAC. -/
def lc_hc_encrypt_mem (P : HcPrims) (hc : HcCryptor) (m : Nat → Nat)
    (inOff outOff len : Nat) : HcCryptor × (Nat → Nat) :=
  let c := lc_hc_crypt_mem P hc.ksst m inOff outOff len
  ({ hc with
      ksst := c.1
      transcript := hc.transcript ++ memRegion c.2 outOff len }, c.2)

/-- `lc_hc_decrypt` against the memory model: absorb the ciphertext region
into the HMAC, then crypt. -/
def lc_hc_decrypt_mem (P : HcPrims) (hc : HcCryptor) (m : Nat → Nat)
    (inOff outOff len : Nat) : HcCryptor × (Nat → Nat) :=
  let hc1 := { hc with transcript := hc.transcript ++ memRegion m inOff len }
  let c := lc_hc_crypt_mem P hc1.ksst m inOff outOff len
  ({ hc1 with ksst := c.1 }, c.2)

/-- Concrete primitives for evaluation: a DRBG whose keystream bytes are all
1, an HMAC returning the all-zero digest, SHA-512 digest size and a 64-byte
keystream block. -/
def c2Prims : HcPrims :=
  { gen := fun s n => (s, List.replicate n 1), seedF := fun _ _ => [],
    mac := fun _ _ => List.replicate 64 0, dsz := 64, B := 64 }

/-- The cryptor produced by `lc_hc_setkey_nocheck c2Prims [3] []`. -/
def c2Hc0 : HcCryptor :=
  { ksst := { drbg := [], keystream := List.replicate 64 1, keystream_ptr := 0 }
    authKey := List.replicate 64 1
    transcript := [] }

/-- The KMAC-DRNG generate trace alternates storeKey/output, each chunk
storing the new key before its bytes are released. -/
theorem kmacGen_trace_alternates
    (kstream : List Nat → List Nat → List Nat → Nat → Nat)
    (addtl : List Nat) :
    ∀ outlen st,
      fkeAlternates
        (lc_kmac256_drng_generate_loop kstream st addtl outlen).2.2 = true := by
  intro outlen
  induction outlen using Nat.strong_induction_on with
  | _ n ih =>
    intro st
    unfold lc_kmac256_drng_generate_loop
    split
    · rfl
    · next hn =>
      simp only [lc_kmac256_drng_fke_init_ctx, List.cons_append, List.nil_append,
        fkeAlternates]
      exact ih _ (by simp only [LC_KMAC256_DRNG_MAX_CHUNK,
        LC_KMAC256_DRNG_KEYSIZE]; omega) _

/-- The XDRBG generate trace alternates storeKey/output likewise. -/
theorem xdrbgGen_trace_alternates (xstream : List Nat → Nat → Nat)
    (keysize chunksize : Nat) (hcs : 0 < chunksize) (alpha : List Nat) :
    ∀ outlen v,
      fkeAlternates
        (lc_xdrbg_drng_generate_loop xstream keysize chunksize hcs v alpha
          outlen).2.2 = true := by
  intro outlen
  induction outlen using Nat.strong_induction_on with
  | _ n ih =>
    intro v
    unfold lc_xdrbg_drng_generate_loop
    split
    · rfl
    · next hn =>
      simp only [lc_xdrbg_drng_fke_init_ctx, List.cons_append, List.nil_append,
        fkeAlternates]
      exact ih _ (by omega) _

/-- C3: Fast-key-erasure invariant.  For both the KMAC-DRNG and the XDRBG:
a seed stores the newly derived key K(N+1)/V into the state and releases no
output, and every generate call's event trace (in source order) consists of
chunks in which the transient context is first finalized into the state key
(`storeKey`) and only then squeezed into the caller's buffer (`output`), so
the state never holds a key that already produced released output. -/
theorem c3_fast_key_erasure_invariant
    (kstream : List Nat → List Nat → List Nat → Nat → Nat)
    (xstream : List Nat → Nat → Nat)
    (kst : KmacDrngState) (xst : XdrbgState) (hcs : 0 < xst.chunksize)
    (seed pers addtl xseed xalpha : List Nat) (outlen xoutlen : Nat) :
    ((lc_kmac256_drng_seed_core kstream kst seed pers).2.1 =
       [DrngEvent.storeKey
         (lc_kmac256_drng_seed_core kstream kst seed pers).1.key]) ∧
    (fkeAlternates
       (lc_kmac256_drng_generate_loop kstream kst addtl outlen).2.2 = true) ∧
    ((lc_xdrbg_drng_seed_core xstream xst xseed xalpha).2.1 =
       [DrngEvent.storeKey
         (lc_xdrbg_drng_seed_core xstream xst xseed xalpha).1.v]) ∧
    (fkeAlternates
       (lc_xdrbg_drng_generate xstream xst hcs xalpha xoutlen).2.2 = true) :=
  ⟨rfl, kmacGen_trace_alternates kstream addtl outlen kst, rfl,
   xdrbgGen_trace_alternates xstream xst.keysize xst.chunksize hcs xalpha
     xoutlen xst.v⟩

/-- Witness for C3 at concrete streams, states and lengths. -/
theorem c3_fast_key_erasure_invariant_witness :
    0 < (8 : Nat) ∧
    (((lc_kmac256_drng_seed_core (fun _ _ _ i => i % 256)
         { key := [], initially_seeded := false } [1, 2] [3]).2.1 =
       [DrngEvent.storeKey
         (lc_kmac256_drng_seed_core (fun _ _ _ i => i % 256)
           { key := [], initially_seeded := false } [1, 2] [3]).1.key]) ∧
     (fkeAlternates
        (lc_kmac256_drng_generate_loop (fun _ _ _ i => i % 256)
          { key := [], initially_seeded := false } [] 5).2.2 = true) ∧
     ((lc_xdrbg_drng_seed_core (fun _ i => i % 256)
         { v := [], initially_seeded := false, keysize := 4,
           chunksize := 8 } [7] []).2.1 =
       [DrngEvent.storeKey
         (lc_xdrbg_drng_seed_core (fun _ i => i % 256)
           { v := [], initially_seeded := false, keysize := 4,
             chunksize := 8 } [7] []).1.v]) ∧
     (fkeAlternates
        (lc_xdrbg_drng_generate (fun _ i => i % 256)
          { v := [], initially_seeded := false, keysize := 4, chunksize := 8 }
          (by decide) [] 20).2.2 = true)) :=
  ⟨by decide,
   c3_fast_key_erasure_invariant (fun _ _ _ i => i % 256) (fun _ i => i % 256)
     { key := [], initially_seeded := false }
     { v := [], initially_seeded := false, keysize := 4, chunksize := 8 }
     (by decide) [1, 2] [3] [] [7] [] 5 20⟩

/-- C6 (code bug): calling seed with a null state does NOT return -EINVAL
without dereferencing the state.  In `lc_kmac256_drng_seed_nocheck` the local
`initially_seeded` is initialized from `state->initially_seeded` (line 455)
before the `if (!state)` check (line 459), and `lc_xdrbg_drng_seed_nocheck`
has no null check at all (`lc_xdrbg_keysize(state)` reads `state->status` in
the initializer, line 226): both dereference the null pointer. -/
theorem c6_seed_null_state_dereferences :
    (∀ kstream seed pers,
      lc_kmac256_drng_seed_nocheck kstream none seed pers =
        Except.error CDeref.nullDeref) ∧
    (∀ xstream seed alpha,
      lc_xdrbg_drng_seed_nocheck xstream none seed alpha =
        Except.error CDeref.nullDeref) :=
  ⟨fun _ _ _ => rfl, fun _ _ _ => rfl⟩

/-- The KMAC-DRNG encode absorbs the 84 left-most bytes of alpha followed by
the byte `n·85 + min(|alpha|, 84)`. -/
theorem kmac_encode_msg (ctx : KmacCtx) (n : Nat) (hn : n ≤ 2)
    (alpha : List Nat) :
    (lc_kmac256_drng_encode ctx n alpha).msg =
      ctx.msg ++ alpha.take 84 ++ [n * 85 + min alpha.length 84] := by
  by_cases hl : alpha.length > 84 <;>
    simp only [lc_kmac256_drng_encode, lc_kmac_update, hl, if_true, if_false,
      reduceIte, List.append_assoc]
  · rw [Nat.mod_eq_of_lt (by omega), Nat.min_eq_right (by omega)]
  · rw [Nat.mod_eq_of_lt (by omega), Nat.min_eq_left (by omega),
      List.take_of_length_le (by omega), List.take_of_length_le (by omega)]

/-- The XDRBG encode, invoked with `n` pre-multiplied by 85, absorbs the same
truncated alpha and the same encoding byte. -/
theorem xdrbg_encode_msg (ctx : XofCtx) (n : Nat) (hn : n ≤ 2)
    (alpha : List Nat) :
    (lc_xdrbg_drng_encode ctx (LC_XDRBG_DRNG_ENCODE_N n) alpha).msg =
      ctx.msg ++ alpha.take 84 ++ [n * 85 + min alpha.length 84] := by
  by_cases hl : alpha.length > 84 <;>
    simp only [lc_xdrbg_drng_encode, lc_hash_update_xof,
      LC_XDRBG_DRNG_ENCODE_N, hl, if_true, if_false, reduceIte,
      List.append_assoc]
  · rw [Nat.mod_eq_of_lt (by omega), Nat.min_eq_right (by omega)]
  · rw [Nat.mod_eq_of_lt (by omega), Nat.min_eq_left (by omega),
      List.take_of_length_le (by omega), List.take_of_length_le (by omega)]

/-- C7: KMAC-DRNG/XDRBG wire format.  The seed and generate operations use
exactly the ASCII customization strings "KMAC-DRNG seed" and
"KMAC-DRNG generate" (no trailing NUL), the stored key is 512 bits, and every
seed/generate invocation absorbs alpha truncated to its 84 left-most bytes
followed by the single byte `n·85 + min(|alpha|, 84)`, with n = 0 on first
seed, n = 1 on reseed and n = 2 on generate, in both DRBGs. -/
theorem c7_drng_wire_format
    (kstream : List Nat → List Nat → List Nat → Nat → Nat)
    (xstream : List Nat → Nat → Nat)
    (st : KmacDrngState) (xst : XdrbgState) (xks : Nat)
    (seed pers addtl xv alpha : List Nat) (n : Nat) (hn : n ≤ 2)
    (ctx : KmacCtx) (xctx : XofCtx) :
    (LC_KMAC_DRNG_SEED_CUSTOMIZATION_STRING =
       [0x4b, 0x4d, 0x41, 0x43, 0x2d, 0x44, 0x52, 0x4e, 0x47, 0x20,
        0x73, 0x65, 0x65, 0x64]) ∧
    (LC_KMAC_DRNG_CTX_CUSTOMIZATION_STRING =
       [0x4b, 0x4d, 0x41, 0x43, 0x2d, 0x44, 0x52, 0x4e, 0x47, 0x20,
        0x67, 0x65, 0x6e, 0x65, 0x72, 0x61, 0x74, 0x65]) ∧
    (8 * LC_KMAC256_DRNG_KEYSIZE = 512) ∧
    ((lc_kmac256_drng_encode ctx n alpha).msg =
       ctx.msg ++ alpha.take 84 ++ [n * 85 + min alpha.length 84]) ∧
    ((lc_xdrbg_drng_encode xctx (LC_XDRBG_DRNG_ENCODE_N n) alpha).msg =
       xctx.msg ++ alpha.take 84 ++ [n * 85 + min alpha.length 84]) ∧
    ((lc_kmac256_drng_seed_core kstream st seed pers).2.2.cust =
       LC_KMAC_DRNG_SEED_CUSTOMIZATION_STRING) ∧
    ((lc_kmac256_drng_seed_core kstream st seed pers).2.2.msg =
       seed ++ pers.take 84 ++
         [(if st.initially_seeded then 1 else 0) * 85 + min pers.length 84]) ∧
    ((lc_kmac256_drng_seed_core kstream st seed pers).1.key.length =
       LC_KMAC256_DRNG_KEYSIZE) ∧
    ((lc_kmac256_drng_fke_init_ctx kstream st addtl).2.1.cust =
       LC_KMAC_DRNG_CTX_CUSTOMIZATION_STRING) ∧
    ((lc_kmac256_drng_fke_init_ctx kstream st addtl).2.1.msg =
       addtl.take 84 ++ [2 * 85 + min addtl.length 84]) ∧
    ((lc_kmac256_drng_fke_init_ctx kstream st addtl).1.key.length =
       LC_KMAC256_DRNG_KEYSIZE) ∧
    ((lc_xdrbg_drng_fke_init_ctx xstream xks xv addtl).2.1.msg =
       xv.take xks ++ addtl.take 84 ++ [2 * 85 + min addtl.length 84]) ∧
    ((lc_xdrbg_drng_seed_core xstream xst seed alpha).2.2.msg =
       (if xst.initially_seeded then xst.v.take xst.keysize else []) ++
         seed ++ alpha.take 84 ++
         [(if xst.initially_seeded then 1 else 0) * 85 +
           min alpha.length 84]) := by
  refine ⟨by decide, by decide, by decide, kmac_encode_msg ctx n hn alpha,
    xdrbg_encode_msg xctx n hn alpha, ?_, ?_, ?_, rfl, ?_, ?_, ?_, ?_⟩
  · by_cases hs : st.initially_seeded <;>
      simp [lc_kmac256_drng_seed_core, lc_kmac_final_xof, lc_kmac_init,
        lc_kmac_update, lc_kmac256_drng_encode, hs]
  · by_cases hs : st.initially_seeded
    · simp only [lc_kmac256_drng_seed_core, lc_kmac_final_xof, hs, reduceIte]
      simpa [lc_kmac_init, lc_kmac_update, List.append_assoc] using
        kmac_encode_msg (lc_kmac_update (lc_kmac_init st.key
          LC_KMAC_DRNG_SEED_CUSTOMIZATION_STRING) seed) 1 (by omega) pers
    · simp only [lc_kmac256_drng_seed_core, lc_kmac_final_xof,
        Bool.not_eq_true] at hs ⊢
      simp only [hs, reduceIte]
      simpa [lc_kmac_init, lc_kmac_update, List.append_assoc] using
        kmac_encode_msg (lc_kmac_update (lc_kmac_init []
          LC_KMAC_DRNG_SEED_CUSTOMIZATION_STRING) seed) 0 (by omega) pers
  · simp [lc_kmac256_drng_seed_core, lc_kmac_final_xof]
  · simpa [lc_kmac256_drng_fke_init_ctx, lc_kmac_final_xof, lc_kmac_init,
      lc_kmac_update] using
      kmac_encode_msg (lc_kmac_init st.key
        LC_KMAC_DRNG_CTX_CUSTOMIZATION_STRING) 2 (by omega) addtl
  · simp [lc_kmac256_drng_fke_init_ctx, lc_kmac_final_xof]
  · simpa [lc_xdrbg_drng_fke_init_ctx, lc_xdrbg_xof_final, lc_hash_init_xof,
      lc_hash_update_xof, List.append_assoc] using
      xdrbg_encode_msg (lc_hash_update_xof lc_hash_init_xof (xv.take xks)) 2
        (by omega) addtl
  · by_cases hs : xst.initially_seeded
    · simp only [lc_xdrbg_drng_seed_core, lc_xdrbg_xof_final, hs, reduceIte]
      simpa [lc_hash_init_xof, lc_hash_update_xof, List.append_assoc] using
        xdrbg_encode_msg (lc_hash_update_xof (lc_hash_update_xof
          lc_hash_init_xof (xst.v.take xst.keysize)) seed) 1 (by omega) alpha
    · simp only [lc_xdrbg_drng_seed_core, lc_xdrbg_xof_final,
        Bool.not_eq_true] at hs ⊢
      simp only [hs, reduceIte]
      simpa [lc_hash_init_xof, lc_hash_update_xof, List.append_assoc] using
        xdrbg_encode_msg (lc_hash_update_xof lc_hash_init_xof seed) 0
          (by omega) alpha

/-- Witness for C7 at concrete streams, states and an alpha of 85 bytes
(exercising the 84-byte clamp). -/
theorem c7_drng_wire_format_witness :
    (2 : Nat) ≤ 2 ∧
    ((lc_kmac256_drng_encode { key := [], cust := [], msg := [9], squeezed := 0 }
        2 (List.replicate 85 7)).msg =
      [9] ++ (List.replicate 85 7).take 84 ++
        [2 * 85 + min (List.replicate 85 7).length 84]) :=
  ⟨by decide,
   ((c7_drng_wire_format (fun _ _ _ i => i) (fun _ i => i)
      { key := [], initially_seeded := false }
      { v := [], initially_seeded := false, keysize := 4, chunksize := 8 }
      4 [] [] [] [] (List.replicate 85 7) 2 (by decide)
      { key := [], cust := [], msg := [9], squeezed := 0 }
      { msg := [], squeezed := 0 }).2.2.2.1)⟩

/-- The nonce increment never touches the block counter. -/
theorem cc20_inc_nonce_counter0 (st : CC20State) :
    (cc20_inc_nonce st).counter0 = st.counter0 := by
  simp only [cc20_inc_nonce]
  split
  · split <;> rfl
  · rfl

/-- The nonce increment preserves the key words. -/
theorem cc20_inc_nonce_key (st : CC20State) :
    (cc20_inc_nonce st).key = st.key := by
  simp only [cc20_inc_nonce]
  split
  · split <;> rfl
  · rfl

/-- The nonce increment is a 96-bit little-endian increment with carry. -/
theorem cc20_inc_nonce_nonce96 (st : CC20State) (h1 : st.counter1 < 2 ^ 32)
    (h2 : st.counter2 < 2 ^ 32) (h3 : st.counter3 < 2 ^ 32) :
    cc20_nonce96 (cc20_inc_nonce st) = (cc20_nonce96 st + 1) % 2 ^ 96 := by
  simp only [cc20_inc_nonce, cc20_nonce96]
  split
  · split <;> simp only [] <;> omega
  · simp only []
    omega

/-- C8 counterexample: the state update performed after a seed chunk (the
seed loop calls `lc_cc20_drng_update(ctx, NULL, LC_CC20_BLOCK_SIZE_WORDS)`)
does NOT leave the 32-bit block-counter word unchanged: the embedded
`cc20_block` invocation advances `counter[0]` from 0 to 1. -/
theorem c8_block_counter_changes_counterexample :
    (lc_cc20_drng_update (fun _ => List.replicate 16 0) (fun x => x)
      { key := List.replicate 8 0, counter0 := 0, counter1 := 0,
            counter2 := 0, counter3 := 0 }
      [] LC_CC20_BLOCK_SIZE_WORDS).counter0 ≠ 0 := by decide

/-- C8 (amended): every `lc_cc20_drng_update` increments the three nonce
words exactly once as a little-endian 96-bit integer with carry propagation
(`counter[1]` incremented; `counter[2]` only when `counter[1]` wraps to 0;
`counter[3]` only when `counter[2]` wraps), and never writes the
block-counter word itself; `counter[0]` changes only when the update has to
generate a fresh ChaCha20 block internally
(`used_words > LC_CC20_KEY_SIZE_WORDS`), in which case the block function
advances it by exactly one (mod 2^32). -/
theorem c8_update_counter_and_nonce (blockWords : CC20State → List Nat)
    (bswap32 : Nat → Nat) (st : CC20State) (buf : List Nat)
    (used_words : Nat) (h1 : st.counter1 < 2 ^ 32) (h2 : st.counter2 < 2 ^ 32)
    (h3 : st.counter3 < 2 ^ 32) :
    (lc_cc20_drng_update blockWords bswap32 st buf used_words).counter0 =
      (if used_words > LC_CC20_KEY_SIZE_WORDS then (st.counter0 + 1) % 2 ^ 32
       else st.counter0) ∧
    cc20_nonce96 (lc_cc20_drng_update blockWords bswap32 st buf used_words) =
      (cc20_nonce96 st + 1) % 2 ^ 96 := by
  unfold lc_cc20_drng_update cc20_block
  by_cases hu : used_words > LC_CC20_KEY_SIZE_WORDS <;>
    simp only [hu, reduceIte] <;>
    exact ⟨by rw [cc20_inc_nonce_counter0], by
      rw [cc20_inc_nonce_nonce96]
      · rfl
      · exact h1
      · exact h2
      · exact h3⟩

/-- Witness for C8 at a concrete state with a wrapping nonce word. -/
theorem c8_update_counter_and_nonce_witness :
    (cc20WitnessState.counter1 < 2 ^ 32 ∧ cc20WitnessState.counter2 < 2 ^ 32 ∧
      cc20WitnessState.counter3 < 2 ^ 32) ∧
    ((lc_cc20_drng_update (fun _ => List.replicate 16 3) (fun x => x)
        cc20WitnessState [] 16).counter0 =
      (if 16 > LC_CC20_KEY_SIZE_WORDS then (cc20WitnessState.counter0 + 1) % 2 ^ 32
       else cc20WitnessState.counter0) ∧
     cc20_nonce96 (lc_cc20_drng_update (fun _ => List.replicate 16 3)
        (fun x => x) cc20WitnessState [] 16) =
      (cc20_nonce96 cc20WitnessState + 1) % 2 ^ 96) :=
  ⟨⟨by norm_num [cc20WitnessState], by norm_num [cc20WitnessState],
    by norm_num [cc20WitnessState]⟩,
   c8_update_counter_and_nonce (fun _ => List.replicate 16 3) (fun x => x)
     cc20WitnessState [] 16 (by norm_num [cc20WitnessState])
     (by norm_num [cc20WitnessState]) (by norm_num [cc20WitnessState])⟩

/-- C4: Sponge finalize transition.  For every sponge state in the absorbing
phase (squeeze_more unset, offset 0) whose padding byte is below 0x80 (true
of every Keccak variant bound to this glue: SHA-3 0x06, SHAKE 0x1f, cSHAKE
0x04), the first finalize/squeeze XORs the padding byte into the state at
byte position `msg_len mod rate`, XORs 0x80 into byte position `rate-1`,
applies the permutation, sets `squeeze_more`, and delivers the requested
output from offset 0 of the finalized state, leaving
`offset = digestsize mod rate`. -/
theorem c4_sponge_finalize_transition (keccakf : List Nat → List Nat)
    (ctx : Sha3State) (hr : 0 < ctx.r) (hsq : ctx.squeeze_more = false)
    (hoff : ctx.offset = 0) (hpad : ctx.padding < 0x80) :
    keccak_arm_asm_squeeze_internal keccakf ctx =
      (let finalized := keccakf (xorByteAt
          (sha3_fill_state_bytes ctx.state [ctx.padding] (ctx.msg_len % ctx.r))
          (ctx.r - 1) 0x80)
       let sq := lc_keccak_squeeze_asm keccakf ctx.r finalized
         ctx.digestsize
       ({ ctx with
            state := sq.1
            squeeze_more := true
            offset := ctx.digestsize % ctx.r }, sq.2)) := by
  unfold keccak_arm_asm_squeeze_internal
  have hc : ¬ (ctx.padding ≥ 0x80 ∧ ctx.msg_len % ctx.r = ctx.r - 1) := by
    intro h
    omega
  simp only [hsq, Bool.not_false, reduceIte, hc, if_false, hoff,
    Bool.false_eq_true, ite_false, ite_true, ne_eq, not_true_eq_false,
    not_false_eq_true]

/-- Witness for C4 at a concrete absorbing-phase state and a concrete
permutation stand-in. -/
theorem c4_sponge_finalize_transition_witness :
    (0 < sha3C4State.r ∧ sha3C4State.squeeze_more = false ∧
      sha3C4State.offset = 0 ∧ sha3C4State.padding < 0x80) ∧
    keccak_arm_asm_squeeze_internal bumpPerm sha3C4State =
      (let finalized := bumpPerm (xorByteAt
          (sha3_fill_state_bytes sha3C4State.state [sha3C4State.padding]
            (sha3C4State.msg_len % sha3C4State.r))
          (sha3C4State.r - 1) 0x80)
       let sq := lc_keccak_squeeze_asm bumpPerm sha3C4State.r
         finalized sha3C4State.digestsize
       ({ sha3C4State with
            state := sq.1
            squeeze_more := true
            offset := sha3C4State.digestsize % sha3C4State.r }, sq.2)) :=
  ⟨⟨by decide, by decide, by decide, by decide⟩,
   c4_sponge_finalize_transition bumpPerm sha3C4State (by decide) (by decide)
     (by decide) (by decide)⟩

/-- C5 counterexample: an absorb (update) on a state that has transitioned to
the squeezing phase is NOT rejected and DOES modify the sponge state: it
clears `squeeze_more` and counts the new bytes into `msg_len`. -/
theorem c5_update_after_squeeze_counterexample :
    sha3C5State.squeeze_more = true ∧
    keccak_arm_asm_absorb_internal (fun l => l) sha3C5State (by decide) [1] ≠
      sha3C5State ∧
    (keccak_arm_asm_absorb_internal (fun l => l) sha3C5State (by decide)
      [1]).squeeze_more = false := by decide

/-- C5 (amended): an update after the transition to squeezing is accepted
rather than rejected: the absorb glue clears `squeeze_more` and continues
absorbing into the current state, adding the input length to `msg_len`. -/
theorem c5_update_after_squeeze_absorbs (keccakf : List Nat → List Nat)
    (ctx : Sha3State) (hr : 0 < ctx.r) (inp : List Nat)
    (hsq : ctx.squeeze_more = true) :
    (keccak_arm_asm_absorb_internal keccakf ctx hr inp).squeeze_more =
      false ∧
    (keccak_arm_asm_absorb_internal keccakf ctx hr inp).msg_len =
      ctx.msg_len + inp.length := by
  unfold keccak_arm_asm_absorb_internal
  dsimp only
  split
  · split
    · exact ⟨rfl, rfl⟩
    · exact ⟨rfl, rfl⟩
  · exact ⟨rfl, rfl⟩

/-- Witness for C5's amended theorem at the concrete squeezing state. -/
theorem c5_update_after_squeeze_absorbs_witness :
    (0 < sha3C5State.r ∧ sha3C5State.squeeze_more = true) ∧
    ((keccak_arm_asm_absorb_internal (fun l => l) sha3C5State (by decide)
        [1, 2, 3]).squeeze_more = false ∧
     (keccak_arm_asm_absorb_internal (fun l => l) sha3C5State (by decide)
        [1, 2, 3]).msg_len = sha3C5State.msg_len + [1, 2, 3].length) :=
  ⟨⟨by decide, by decide⟩,
   c5_update_after_squeeze_absorbs (fun l => l) sha3C5State (by decide)
     [1, 2, 3] (by decide)⟩

/-- C9 (code bug): a zero-length squeeze on a squeezing-phase state at
intra-block offset 0 writes nothing and keeps `offset`, but it does NOT leave
the sponge state as it was: the glue's lazy pre-permutation runs, so the
lanes are permuted once, and the byte stream produced by subsequent squeezes
skips one rate block compared to the same squeeze without the n = 0 call. -/
theorem c9_zero_length_squeeze_not_noop :
    (keccak_arm_asm_squeeze_internal bumpPerm sha3C9State).2 = [] ∧
    (keccak_arm_asm_squeeze_internal bumpPerm sha3C9State).1.offset =
      sha3C9State.offset ∧
    (keccak_arm_asm_squeeze_internal bumpPerm sha3C9State).1.state ≠
      sha3C9State.state ∧
    (keccak_arm_asm_squeeze_internal bumpPerm
      { (keccak_arm_asm_squeeze_internal bumpPerm sha3C9State).1 with
            digestsize := 136 }).2 ≠
      (keccak_arm_asm_squeeze_internal bumpPerm sha3C9StateFull).2 := by
  decide

/-- After a refresh the pointer is strictly below a positive `B`. -/
theorem hcRegen_ptr_lt (P : HcPrims) (hB : 0 < P.B) (st : KsState) :
    (hcRegen P st).keystream_ptr < P.B := by
  unfold hcRegen
  split
  · exact hB
  · next h => omega

/-- No refresh happens below the block boundary. -/
theorem hcRegen_of_lt (P : HcPrims) (st : KsState)
    (h : st.keystream_ptr < P.B) : hcRegen P st = st := by
  unfold hcRegen
  rw [if_neg]
  omega

/-- A byte step may be started from the refreshed state. -/
theorem hcByteCrypt_regen (P : HcPrims) (hB : 0 < P.B) (st : KsState)
    (b : Nat) (bs : List Nat) :
    hcByteCrypt P st (b :: bs) = hcByteCrypt P (hcRegen P st) (b :: bs) := by
  rw [hcByteCrypt, hcByteCrypt,
    hcRegen_of_lt P (hcRegen P st) (hcRegen_ptr_lt P hB st)]

/-- Running `hcByteCrypt` through a within-block chunk of `todo` bytes: no
refresh triggers, the output is the XOR of the chunk with the keystream
window, and the pointer advances by `todo`. -/
theorem hcByteCrypt_chunk (P : HcPrims) :
    ∀ (todo : Nat) (st : KsState) (inp : List Nat),
      st.keystream_ptr + todo ≤ P.B → todo ≤ inp.length →
      hcByteCrypt P st inp =
        ((hcByteCrypt P { st with keystream_ptr := st.keystream_ptr + todo }
            (inp.drop todo)).1,
         (((List.range todo).map fun i =>
            (inp.getD i 0) ^^^ (st.keystream.getD (st.keystream_ptr + i) 0)) ++
          (hcByteCrypt P { st with keystream_ptr := st.keystream_ptr + todo }
            (inp.drop todo)).2)) := by
  intro todo
  induction todo with
  | zero =>
    intro st inp h1 h2
    simp
  | succ n ih =>
    intro st inp h1 h2
    match inp with
    | [] => simp at h2
    | b :: bs =>
      rw [hcByteCrypt, hcRegen_of_lt P st (by omega)]
      have harith : st.keystream_ptr + 1 + n = st.keystream_ptr + (n + 1) := by
        omega
      have ihb := ih { st with keystream_ptr := st.keystream_ptr + 1 } bs
        (by simp; omega) (by simpa using h2)
      simp only [harith] at ihb
      rw [ihb]
      refine Prod.ext rfl ?_
      simp only [List.drop_succ_cons, List.range_succ_eq_map, List.map_cons,
        List.map_map, List.cons_append, List.getD_cons_zero, Nat.add_zero]
      refine congrArg₂ List.cons rfl (congrArg₂ (· ++ ·) ?_ rfl)
      refine List.map_congr_left fun i _ => ?_
      simp only [Function.comp_apply, List.getD_cons_succ]
      have : st.keystream_ptr + 1 + i = st.keystream_ptr + (i + 1) := by omega
      rw [this]

/-- The chunked loop of `lc_hc_crypt` equals the byte-at-a-time
characterization whenever the step bound covers the input. -/
theorem lc_hc_crypt_go_eq_byte (P : HcPrims) (hB : 0 < P.B) :
    ∀ (fuel : Nat) (st : KsState) (inp : List Nat), inp.length ≤ fuel →
      lc_hc_crypt_go P fuel st inp = hcByteCrypt P st inp := by
  intro fuel
  induction fuel with
  | zero =>
    intro st inp h
    match inp with
    | [] => rfl
    | b :: bs => simp at h
  | succ n ih =>
    intro st inp h
    match inp with
    | [] => rfl
    | b :: bs =>
      rw [lc_hc_crypt_go]
      simp only [reduceCtorEq, if_false, ite_false, reduceIte]
      have hptr := hcRegen_ptr_lt P hB st
      have htodo1 : 1 ≤ min (min (b :: bs).length P.B)
          (P.B - (hcRegen P st).keystream_ptr) := by
        simp only [List.length_cons]
        omega
      have htodoB : min (min (b :: bs).length P.B)
          (P.B - (hcRegen P st).keystream_ptr) ≤
          P.B - (hcRegen P st).keystream_ptr := by
        omega
      have htodoL : min (min (b :: bs).length P.B)
          (P.B - (hcRegen P st).keystream_ptr) ≤ (b :: bs).length := by
        simp only [List.length_cons]
        omega
      rw [ih _ _ (by simp only [List.length_drop, List.length_cons] at *; omega)]
      rw [hcByteCrypt_regen P hB st b bs]
      rw [hcByteCrypt_chunk P _ (hcRegen P st) (b :: bs) (by omega) htodoL]

/-- `lc_hc_crypt` equals the byte-at-a-time characterization. -/
theorem lc_hc_crypt_eq_byte (P : HcPrims) (hB : 0 < P.B) (st : KsState)
    (inp : List Nat) : lc_hc_crypt P st inp = hcByteCrypt P st inp :=
  lc_hc_crypt_go_eq_byte P hB inp.length st inp le_rfl

/-- The keystream XOR produces as many bytes as it consumes. -/
theorem hcByteCrypt_length (P : HcPrims) :
    ∀ (inp : List Nat) (st : KsState),
      (hcByteCrypt P st inp).2.length = inp.length := by
  intro inp
  induction inp with
  | nil => intro st; rfl
  | cons b bs ih =>
    intro st
    rw [hcByteCrypt]
    simp [ih]

/-- Splitting the input splits the crypt run. -/
theorem hcByteCrypt_append (P : HcPrims) :
    ∀ (xs ys : List Nat) (st : KsState),
      hcByteCrypt P st (xs ++ ys) =
        ((hcByteCrypt P (hcByteCrypt P st xs).1 ys).1,
         (hcByteCrypt P st xs).2 ++
           (hcByteCrypt P (hcByteCrypt P st xs).1 ys).2) := by
  intro xs
  induction xs with
  | nil => intro ys st; rfl
  | cons b bs ih =>
    intro ys st
    simp only [List.cons_append, hcByteCrypt, List.append_eq]
    rw [ih]

/-- Crypting the crypt output from the same start state restores the input
(XOR with the same keystream cancels) and reaches the same final state. -/
theorem hcByteCrypt_involution (P : HcPrims) :
    ∀ (xs : List Nat) (st : KsState),
      hcByteCrypt P st (hcByteCrypt P st xs).2 =
        ((hcByteCrypt P st xs).1, xs) := by
  intro xs
  induction xs with
  | nil => intro st; rfl
  | cons b bs ih =>
    intro st
    rw [hcByteCrypt]
    simp only []
    rw [hcByteCrypt]
    simp only [ih]
    rw [Nat.xor_assoc, Nat.xor_self, Nat.xor_zero]

/-- The tag depends only on the HMAC key and the absorbed transcript. -/
theorem lc_hc_encrypt_tag_congr (P : HcPrims) (a b : HcCryptor) (taglen : Nat)
    (hk : a.authKey = b.authKey) (ht : a.transcript = b.transcript) :
    lc_hc_encrypt_tag P a taglen = lc_hc_encrypt_tag P b taglen := by
  unfold lc_hc_encrypt_tag
  rw [hk, ht]

/-- `lc_hc_encrypt` splits over input concatenation (enc_update chunking). -/
theorem lc_hc_encrypt_append (P : HcPrims) (hB : 0 < P.B) (hc : HcCryptor)
    (xs ys : List Nat) :
    lc_hc_encrypt P hc (xs ++ ys) =
      ((lc_hc_encrypt P (lc_hc_encrypt P hc xs).1 ys).1,
       (lc_hc_encrypt P hc xs).2 ++
         (lc_hc_encrypt P (lc_hc_encrypt P hc xs).1 ys).2) := by
  unfold lc_hc_encrypt
  simp only [lc_hc_crypt_eq_byte P hB]
  rw [hcByteCrypt_append]
  simp [List.append_assoc]

/-- The streamed enc_update fold equals one encryption of the
concatenation. -/
theorem lc_hc_streamed_fold (P : HcPrims) (hB : 0 < P.B) :
    ∀ (chunks : List (List Nat)) (hc : HcCryptor) (pre : List Nat),
      chunks.foldl (fun acc c =>
          let e := lc_hc_encrypt P acc.1 c
          (e.1, acc.2 ++ e.2)) (hc, pre) =
        ((lc_hc_encrypt P hc chunks.flatten).1,
         pre ++ (lc_hc_encrypt P hc chunks.flatten).2) := by
  intro chunks
  induction chunks with
  | nil =>
    intro hc pre
    simp [lc_hc_encrypt, lc_hc_crypt_eq_byte P hB, hcByteCrypt]
  | cons c cs ih =>
    intro hc pre
    simp only [List.foldl_cons, List.flatten_cons]
    rw [ih, lc_hc_encrypt_append P hB hc c cs.flatten]
    simp [List.append_assoc]

/-- Decrypting a fresh encryption from the same cryptor state authenticates
(returns 0). -/
theorem lc_hc_round_trip_ret (P : HcPrims) (hB : 0 < P.B)
    (hdsz : P.dsz ≤ LC_SHA_MAX_SIZE_DIGEST) (hc : HcCryptor)
    (pt aad : List Nat) (taglen : Nat) (htag : taglen ≤ P.dsz) :
    (lc_hc_decrypt_oneshot P hc
       (lc_hc_encrypt_oneshot P hc pt aad taglen).2.1 aad
       (lc_hc_encrypt_oneshot P hc pt aad taglen).2.2 taglen).1 = 0 := by
  simp only [lc_hc_decrypt_oneshot, lc_hc_encrypt_oneshot, lc_hc_decrypt,
    lc_hc_encrypt, lc_hc_add_aad, lc_hc_decrypt_authenticate,
    lc_hc_encrypt_tag]
  rw [if_neg (by simp only [LC_SHA_MAX_SIZE_DIGEST] at *; omega)]
  simp

/-- Decrypting a fresh encryption from the same cryptor state returns the
original plaintext. -/
theorem lc_hc_round_trip_pt (P : HcPrims) (hB : 0 < P.B) (hc : HcCryptor)
    (pt aad : List Nat) (taglen : Nat) :
    (lc_hc_decrypt_oneshot P hc
       (lc_hc_encrypt_oneshot P hc pt aad taglen).2.1 aad
       (lc_hc_encrypt_oneshot P hc pt aad taglen).2.2 taglen).2.2 = pt := by
  simp only [lc_hc_decrypt_oneshot, lc_hc_encrypt_oneshot, lc_hc_decrypt,
    lc_hc_encrypt, lc_hc_add_aad, lc_hc_crypt_eq_byte P hB]
  rw [hcByteCrypt_involution]

/-- The streamed API is bit-identical to the one-shot API. -/
theorem lc_hc_streamed_eq (P : HcPrims) (hB : 0 < P.B) (hc : HcCryptor)
    (aad : List Nat) (chunks : List (List Nat)) (taglen : Nat) :
    lc_hc_streamed_encrypt P hc aad chunks taglen =
      lc_hc_encrypt_oneshot P hc chunks.flatten aad taglen := by
  simp only [lc_hc_streamed_encrypt, lc_hc_encrypt_oneshot]
  rw [lc_hc_streamed_fold P hB]
  simp

/-- C1: Hash-AEAD round trip and streaming equivalence.  For every choice of
the underlying DRBG and HMAC, every non-empty key, IV, AAD, every split
`chunks` of the plaintext and every `taglen` up to the digest size: setkey
succeeds, decrypt_oneshot of the one-shot encryption on a freshly re-keyed
state (same key and IV give the same cryptor) returns 0 and the original
plaintext, and the streamed enc_init/enc_update*/enc_final path produces the
identical ciphertext, tag and final state. -/
theorem c1_hash_aead_round_trip_and_streaming (P : HcPrims) (hB : 0 < P.B)
    (hdsz : P.dsz ≤ LC_SHA_MAX_SIZE_DIGEST) (key iv aad : List Nat)
    (chunks : List (List Nat)) (taglen : Nat) (hkey : key ≠ [])
    (htag : taglen ≤ P.dsz) :
    ∃ hc0, lc_hc_setkey_nocheck P key iv = some hc0 ∧
      (lc_hc_decrypt_oneshot P hc0
          (lc_hc_encrypt_oneshot P hc0 chunks.flatten aad taglen).2.1 aad
          (lc_hc_encrypt_oneshot P hc0 chunks.flatten aad taglen).2.2
          taglen).1 = 0 ∧
      (lc_hc_decrypt_oneshot P hc0
          (lc_hc_encrypt_oneshot P hc0 chunks.flatten aad taglen).2.1 aad
          (lc_hc_encrypt_oneshot P hc0 chunks.flatten aad taglen).2.2
          taglen).2.2 = chunks.flatten ∧
      lc_hc_streamed_encrypt P hc0 aad chunks taglen =
        lc_hc_encrypt_oneshot P hc0 chunks.flatten aad taglen := by
  unfold lc_hc_setkey_nocheck
  rw [if_neg hkey]
  exact ⟨_, rfl, lc_hc_round_trip_ret P hB hdsz _ chunks.flatten aad taglen htag,
    lc_hc_round_trip_pt P hB _ chunks.flatten aad taglen,
    lc_hc_streamed_eq P hB _ aad chunks taglen⟩

/-- Witness for C1 at concrete primitives, key, AAD, a 2-chunk split and
taglen 1. -/
theorem c1_hash_aead_round_trip_and_streaming_witness :
    (0 < c2Prims.B ∧ c2Prims.dsz ≤ LC_SHA_MAX_SIZE_DIGEST ∧
      ([3] : List Nat) ≠ [] ∧ 1 ≤ c2Prims.dsz) ∧
    (∃ hc0, lc_hc_setkey_nocheck c2Prims [3] [] = some hc0 ∧
      (lc_hc_decrypt_oneshot c2Prims hc0
          (lc_hc_encrypt_oneshot c2Prims hc0 [[5], [6, 7]].flatten [2] 1).2.1 [2]
          (lc_hc_encrypt_oneshot c2Prims hc0 [[5], [6, 7]].flatten [2] 1).2.2
          1).1 = 0 ∧
      (lc_hc_decrypt_oneshot c2Prims hc0
          (lc_hc_encrypt_oneshot c2Prims hc0 [[5], [6, 7]].flatten [2] 1).2.1 [2]
          (lc_hc_encrypt_oneshot c2Prims hc0 [[5], [6, 7]].flatten [2] 1).2.2
          1).2.2 = [[5], [6, 7]].flatten ∧
      lc_hc_streamed_encrypt c2Prims hc0 [2] [[5], [6, 7]] 1 =
        lc_hc_encrypt_oneshot c2Prims hc0 [[5], [6, 7]].flatten [2] 1) :=
  ⟨⟨by decide, by decide, by decide, by decide⟩,
   c1_hash_aead_round_trip_and_streaming c2Prims (by decide) (by decide)
     [3] [] [2] [[5], [6, 7]] 1 (by decide) (by decide)⟩

/-- C2 counterexample: decrypting the genuine ciphertext of [5, 6, 7] with a
corrupted tag returns -EBADMSG (tag_mismatch) while the caller's output
buffer receives the decrypted plaintext [5, 6, 7] — it is neither left
unchanged nor scrubbed, so the plaintext is exposed on authentication
failure. -/
theorem c2_tag_mismatch_exposes_plaintext_counterexample :
    lc_hc_setkey_nocheck c2Prims [3] [] = some c2Hc0 ∧
    (lc_hc_encrypt_oneshot c2Prims c2Hc0 [5, 6, 7] [] 1).2.1 = [4, 7, 6] ∧
    (lc_hc_encrypt_oneshot c2Prims c2Hc0 [5, 6, 7] [] 1).2.2 = [0] ∧
    (lc_hc_decrypt_oneshot c2Prims c2Hc0 [4, 7, 6] [] [1] 1).1 = -74 ∧
    (lc_hc_decrypt_oneshot c2Prims c2Hc0 [4, 7, 6] [] [1] 1).2.2 =
      [5, 6, 7] := by decide

/-- C2 (amended): on a tag mismatch the output buffer holds the raw
keystream decryption of the ciphertext: `lc_hc_decrypt_oneshot` writes the
decryption into the caller's buffer before authenticating (deliberately, for
constant time between passing and failing decryptions) and returns it
unconditionally; it is never reverted or scrubbed. -/
theorem c2_decrypt_oneshot_always_writes_decryption (P : HcPrims)
    (hc : HcCryptor) (ct aad tag : List Nat) (taglen : Nat) :
    (lc_hc_decrypt_oneshot P hc ct aad tag taglen).2.2 =
      (lc_hc_crypt P hc.ksst ct).2 := rfl

/-- Reading the written address. -/
theorem memWrite_same (m : Nat → Nat) (a v : Nat) : memWrite m a v a = v := by
  simp [memWrite]

/-- Reading any other address. -/
theorem memWrite_other (m : Nat → Nat) (a v x : Nat) (h : x ≠ a) :
    memWrite m a v x = m x := by
  simp [memWrite, h]

/-- What `xorBytes` leaves in memory: inside `[dst, dst+n)` the byte is the
original XORed with the matching keystream byte; everything else is
untouched. -/
theorem xorBytes_read (m : Nat → Nat) (dst : Nat) (ks : List Nat)
    (ptr : Nat) :
    ∀ (n a : Nat),
      xorBytes m dst ks ptr n a =
        if dst ≤ a ∧ a < dst + n then m a ^^^ ks.getD (ptr + (a - dst)) 0
        else m a := by
  intro n
  induction n with
  | zero =>
    intro a
    rw [xorBytes, if_neg (by omega)]
  | succ k ih =>
    intro a
    rw [xorBytes]
    by_cases ha : a = dst + k
    · subst ha
      rw [memWrite_same, ih (dst + k), if_neg (by omega),
        if_pos (by omega)]
      simp
    · rw [memWrite_other _ _ _ _ ha, ih a]
      by_cases h2 : dst ≤ a ∧ a < dst + k
      · rw [if_pos h2, if_pos (by omega)]
      · rw [if_neg h2, if_neg (by omega)]

/-- What `memcpyBytes` leaves in memory when source and destination ranges
are disjoint: inside `[dst, dst+n)` the matching source byte; everything
else untouched. -/
theorem memcpyBytes_read (m : Nat → Nat) (dst src : Nat) :
    ∀ (n : Nat), (dst + n ≤ src ∨ src + n ≤ dst) →
      ∀ (a : Nat),
        memcpyBytes m dst src n a =
          if dst ≤ a ∧ a < dst + n then m (src + (a - dst)) else m a := by
  intro n
  induction n with
  | zero =>
    intro _ a
    rw [memcpyBytes, if_neg (by omega)]
  | succ k ih =>
    intro hdisj a
    have hdisj' : dst + k ≤ src ∨ src + k ≤ dst := by omega
    rw [memcpyBytes]
    by_cases ha : a = dst + k
    · subst ha
      rw [memWrite_same, ih hdisj' (src + k), if_neg (by omega),
        if_pos (by omega)]
      simp
    · rw [memWrite_other _ _ _ _ ha, ih hdisj' a]
      by_cases h2 : dst ≤ a ∧ a < dst + k
      · rw [if_pos h2, if_pos (by omega)]
      · rw [if_neg h2, if_neg (by omega)]

/-- Reading a region element. -/
theorem memRegion_getD (m : Nat → Nat) (off len i : Nat) (h : i < len) :
    (memRegion m off len).getD i 0 = m (off + i) := by
  simp [memRegion, List.getD_eq_getElem?_getD, List.getElem?_map,
    List.getElem?_range, h]

/-- Splitting a region read. -/
theorem memRegion_add (m : Nat → Nat) (off a b : Nat) :
    memRegion m off (a + b) =
      memRegion m off a ++ memRegion m (off + a) b := by
  simp only [memRegion, List.range_add, List.map_append, List.map_map]
  refine congrArg₂ (· ++ ·) rfl (List.map_congr_left fun i _ => ?_)
  simp [Nat.add_assoc]

/-- A region read only depends on the bytes inside the region. -/
theorem memRegion_congr (m m' : Nat → Nat) (off len : Nat)
    (h : ∀ a, off ≤ a → a < off + len → m a = m' a) :
    memRegion m off len = memRegion m' off len := by
  refine List.map_congr_left fun i hi => ?_
  rw [List.mem_range] at hi
  exact h _ (Nat.le_add_right off i) (by omega)

/-- `memRegion` length. -/
theorem memRegion_length (m : Nat → Nat) (off len : Nat) :
    (memRegion m off len).length = len := by
  simp [memRegion]

/-- Dropping the first part of a split region read. -/
theorem memRegion_drop_add (m : Nat → Nat) (off todo k : Nat) :
    (memRegion m off (todo + k)).drop todo = memRegion m (off + todo) k := by
  rw [memRegion_add]
  exact List.drop_left' (memRegion_length m off todo)

/-- `hcByteCrypt` on a non-empty input may start from the refreshed state. -/
theorem hcByteCrypt_regen_ne (P : HcPrims) (hB : 0 < P.B) (st : KsState)
    (inp : List Nat) (h : inp ≠ []) :
    hcByteCrypt P st inp = hcByteCrypt P (hcRegen P st) inp := by
  match inp with
  | [] => exact absurd rfl h
  | b :: bs => exact hcByteCrypt_regen P hB st b bs

/-- The in-place run of the memory-model crypt loop (`out == in`, so the
`memcpy` is skipped): the final keystream state and the bytes left in the
buffer agree with the byte-level crypt of the original buffer contents, and
no byte outside the buffer is touched. -/
theorem lc_hc_crypt_mem_go_alias (P : HcPrims) (hB : 0 < P.B) :
    ∀ (fuel : Nat) (st : KsState) (m : Nat → Nat) (off len : Nat),
      len ≤ fuel →
      (lc_hc_crypt_mem_go P fuel st m off off len).1 =
        (hcByteCrypt P st (memRegion m off len)).1 ∧
      memRegion (lc_hc_crypt_mem_go P fuel st m off off len).2 off len =
        (hcByteCrypt P st (memRegion m off len)).2 ∧
      ∀ a, a < off ∨ off + len ≤ a →
        (lc_hc_crypt_mem_go P fuel st m off off len).2 a = m a := by
  intro fuel
  induction fuel with
  | zero =>
    intro st m off len h
    have hl : len = 0 := by omega
    subst hl
    exact ⟨by simp [lc_hc_crypt_mem_go, memRegion, hcByteCrypt],
      by simp [lc_hc_crypt_mem_go, memRegion, hcByteCrypt],
      fun a _ => by simp [lc_hc_crypt_mem_go]⟩
  | succ fuel ih =>
    intro st m off len hlen
    by_cases h0 : len = 0
    · subst h0
      exact ⟨by simp [lc_hc_crypt_mem_go, memRegion, hcByteCrypt],
        by simp [lc_hc_crypt_mem_go, memRegion, hcByteCrypt],
        fun a _ => by simp [lc_hc_crypt_mem_go]⟩
    · rw [lc_hc_crypt_mem_go]
      rw [if_neg h0]
      have hne : ¬ (off ≠ off) := by simp
      dsimp only
      rw [if_neg hne]
      set st1 := hcRegen P st with hst1def
      set todo := min (min len P.B) (P.B - st1.keystream_ptr) with htododef
      set m2 := xorBytes m off st1.keystream st1.keystream_ptr todo
        with hm2def
      set st2 : KsState :=
        { st1 with keystream_ptr := st1.keystream_ptr + todo } with hst2def
      have hptr : st1.keystream_ptr < P.B := hcRegen_ptr_lt P hB st
      have htodo1 : 1 ≤ todo := by rw [htododef]; omega
      have htodoL : todo ≤ len := by rw [htododef]; omega
      have htodoB : st1.keystream_ptr + todo ≤ P.B := by rw [htododef]; omega
      obtain ⟨ih1, ih2, ih3⟩ := ih st2 m2 (off + todo) (len - todo)
        (by omega)
      have hlen2 : len = todo + (len - todo) := by omega
      have hsplit : ∀ (M : Nat → Nat),
          memRegion M off len =
            memRegion M off todo ++ memRegion M (off + todo) (len - todo) := by
        intro M
        conv_lhs => rw [hlen2]
        exact memRegion_add M off todo (len - todo)
      have hdrop : (memRegion m off len).drop todo =
          memRegion m (off + todo) (len - todo) := by
        conv_lhs => rw [hlen2]
        exact memRegion_drop_add m off todo (len - todo)
      have hm2reg : memRegion m2 (off + todo) (len - todo) =
          memRegion m (off + todo) (len - todo) := by
        apply memRegion_congr
        intro a ha1 ha2
        rw [hm2def, xorBytes_read, if_neg (by omega)]
      have hbyte : hcByteCrypt P st (memRegion m off len) =
          ((hcByteCrypt P st2 (memRegion m (off + todo) (len - todo))).1,
           ((List.range todo).map fun i =>
             ((memRegion m off len).getD i 0) ^^^
               (st1.keystream.getD (st1.keystream_ptr + i) 0)) ++
           (hcByteCrypt P st2
             (memRegion m (off + todo) (len - todo))).2) := by
        rw [hcByteCrypt_regen_ne P hB st _
          (by intro hemp; have := memRegion_length m off len; rw [hemp] at this
              simp at this; omega)]
        rw [← hst1def]
        rw [hcByteCrypt_chunk P todo st1 (memRegion m off len) htodoB
          (by rw [memRegion_length]; exact htodoL)]
        rw [← hst2def, hdrop]
      have hchunk1 : memRegion m2 off todo =
          (List.range todo).map fun i =>
            ((memRegion m off len).getD i 0) ^^^
              (st1.keystream.getD (st1.keystream_ptr + i) 0) := by
        rw [show memRegion m2 off todo =
          (List.range todo).map fun i => m2 (off + i) from rfl]
        apply List.map_congr_left
        intro i hi
        rw [List.mem_range] at hi
        rw [hm2def, xorBytes_read, if_pos (by omega)]
        rw [memRegion_getD m off len i (by omega)]
        congr 2
        omega
      refine ⟨?_, ?_, ?_⟩
      · rw [ih1, hm2reg, hbyte]
      · rw [hsplit, hbyte]
        refine congrArg₂ (· ++ ·) ?_ ?_
        · rw [← hchunk1]
          apply memRegion_congr
          intro a ha1 ha2
          exact ih3 a (by omega)
        · rw [ih2, hm2reg]
      · intro a ha
        rw [ih3 a (by omega), hm2def, xorBytes_read, if_neg (by omega)]

/-- The distinct-buffers run of the memory-model crypt loop (`out != in`
disjoint, so each chunk is copied and then XORed in the output buffer): the
final keystream state and the output-region bytes agree with the byte-level
crypt of the input-region bytes, and no byte outside the output region is
touched. -/
theorem lc_hc_crypt_mem_go_disjoint (P : HcPrims) (hB : 0 < P.B) :
    ∀ (fuel : Nat) (st : KsState) (m : Nat → Nat) (inOff outOff len : Nat),
      len ≤ fuel → (inOff + len ≤ outOff ∨ outOff + len ≤ inOff) →
      (lc_hc_crypt_mem_go P fuel st m inOff outOff len).1 =
        (hcByteCrypt P st (memRegion m inOff len)).1 ∧
      memRegion (lc_hc_crypt_mem_go P fuel st m inOff outOff len).2 outOff
          len =
        (hcByteCrypt P st (memRegion m inOff len)).2 ∧
      ∀ a, a < outOff ∨ outOff + len ≤ a →
        (lc_hc_crypt_mem_go P fuel st m inOff outOff len).2 a = m a := by
  intro fuel
  induction fuel with
  | zero =>
    intro st m inOff outOff len h _
    have hl : len = 0 := by omega
    subst hl
    exact ⟨by simp [lc_hc_crypt_mem_go, memRegion, hcByteCrypt],
      by simp [lc_hc_crypt_mem_go, memRegion, hcByteCrypt],
      fun a _ => by simp [lc_hc_crypt_mem_go]⟩
  | succ fuel ih =>
    intro st m inOff outOff len hlen hdisj
    by_cases h0 : len = 0
    · subst h0
      exact ⟨by simp [lc_hc_crypt_mem_go, memRegion, hcByteCrypt],
        by simp [lc_hc_crypt_mem_go, memRegion, hcByteCrypt],
        fun a _ => by simp [lc_hc_crypt_mem_go]⟩
    · rw [lc_hc_crypt_mem_go]
      rw [if_neg h0]
      have hne : inOff ≠ outOff := by omega
      dsimp only
      rw [if_pos hne]
      set st1 := hcRegen P st with hst1def
      set todo := min (min len P.B) (P.B - st1.keystream_ptr) with htododef
      set m1 := memcpyBytes m outOff inOff todo with hm1def
      set m2 := xorBytes m1 outOff st1.keystream st1.keystream_ptr todo
        with hm2def
      set st2 : KsState :=
        { st1 with keystream_ptr := st1.keystream_ptr + todo } with hst2def
      have hptr : st1.keystream_ptr < P.B := hcRegen_ptr_lt P hB st
      have htodo1 : 1 ≤ todo := by rw [htododef]; omega
      have htodoL : todo ≤ len := by rw [htododef]; omega
      have htodoB : st1.keystream_ptr + todo ≤ P.B := by rw [htododef]; omega
      have hcpydisj : outOff + todo ≤ inOff ∨ inOff + todo ≤ outOff := by
        omega
      have hm2out : ∀ a, a < outOff ∨ outOff + todo ≤ a → m2 a = m a := by
        intro a ha
        rw [hm2def, xorBytes_read, if_neg (by omega), hm1def,
          memcpyBytes_read m outOff inOff todo hcpydisj, if_neg (by omega)]
      obtain ⟨ih1, ih2, ih3⟩ := ih st2 m2 (inOff + todo) (outOff + todo)
        (len - todo) (by omega) (by omega)
      have hlen2 : len = todo + (len - todo) := by omega
      have hsplitIn : memRegion m inOff len =
          memRegion m inOff todo ++ memRegion m (inOff + todo) (len - todo) := by
        conv_lhs => rw [hlen2]
        exact memRegion_add m inOff todo (len - todo)
      have hsplitOut : ∀ (M : Nat → Nat),
          memRegion M outOff len =
            memRegion M outOff todo ++
              memRegion M (outOff + todo) (len - todo) := by
        intro M
        conv_lhs => rw [hlen2]
        exact memRegion_add M outOff todo (len - todo)
      have hdrop : (memRegion m inOff len).drop todo =
          memRegion m (inOff + todo) (len - todo) := by
        conv_lhs => rw [hlen2]
        exact memRegion_drop_add m inOff todo (len - todo)
      have hm2reg : memRegion m2 (inOff + todo) (len - todo) =
          memRegion m (inOff + todo) (len - todo) := by
        apply memRegion_congr
        intro a ha1 ha2
        exact hm2out a (by omega)
      have hbyte : hcByteCrypt P st (memRegion m inOff len) =
          ((hcByteCrypt P st2 (memRegion m (inOff + todo) (len - todo))).1,
           ((List.range todo).map fun i =>
             ((memRegion m inOff len).getD i 0) ^^^
               (st1.keystream.getD (st1.keystream_ptr + i) 0)) ++
           (hcByteCrypt P st2
             (memRegion m (inOff + todo) (len - todo))).2) := by
        rw [hcByteCrypt_regen_ne P hB st _
          (by intro hemp; have := memRegion_length m inOff len
              rw [hemp] at this; simp at this; omega)]
        rw [← hst1def]
        rw [hcByteCrypt_chunk P todo st1 (memRegion m inOff len) htodoB
          (by rw [memRegion_length]; exact htodoL)]
        rw [← hst2def, hdrop]
      have hchunk1 : memRegion m2 outOff todo =
          (List.range todo).map fun i =>
            ((memRegion m inOff len).getD i 0) ^^^
              (st1.keystream.getD (st1.keystream_ptr + i) 0) := by
        rw [show memRegion m2 outOff todo =
          (List.range todo).map fun i => m2 (outOff + i) from rfl]
        apply List.map_congr_left
        intro i hi
        rw [List.mem_range] at hi
        rw [hm2def, xorBytes_read, if_pos (by omega), hm1def,
          memcpyBytes_read m outOff inOff todo hcpydisj, if_pos (by omega)]
        rw [memRegion_getD m inOff len i (by omega)]
        have h1 : outOff + i - outOff = i := by omega
        rw [h1]
      refine ⟨?_, ?_, ?_⟩
      · rw [ih1, hm2reg, hbyte]
      · rw [hsplitOut, hbyte]
        refine congrArg₂ (· ++ ·) ?_ ?_
        · rw [← hchunk1]
          apply memRegion_congr
          intro a ha1 ha2
          exact ih3 a (by omega)
        · rw [ih2, hm2reg]
      · intro a ha
        rw [ih3 a (by omega)]
        exact hm2out a (by omega)

/-- C10: In-place operation equivalence.  For every choice of primitives,
keyed cryptor, memory, data length and disjoint output placement: calling
encrypt (or decrypt) with the output buffer identical to the input buffer
produces exactly the same output bytes, the same final cryptor state (hence
the same authentication tag from enc_final/dec_final) as calling it with a
distinct, non-overlapping output buffer holding the same input; both equal
the list-level keystream XOR of the input bytes. -/
theorem c10_in_place_equivalence (P : HcPrims) (hB : 0 < P.B)
    (hc : HcCryptor) (m : Nat → Nat) (inOff outOff len taglen : Nat)
    (hdisj : inOff + len ≤ outOff ∨ outOff + len ≤ inOff) :
    memRegion (lc_hc_encrypt_mem P hc m inOff inOff len).2 inOff len =
      memRegion (lc_hc_encrypt_mem P hc m inOff outOff len).2 outOff len ∧
    (lc_hc_encrypt_mem P hc m inOff inOff len).1 =
      (lc_hc_encrypt_mem P hc m inOff outOff len).1 ∧
    lc_hc_encrypt_tag P (lc_hc_encrypt_mem P hc m inOff inOff len).1
        taglen =
      lc_hc_encrypt_tag P (lc_hc_encrypt_mem P hc m inOff outOff len).1
        taglen ∧
    memRegion (lc_hc_decrypt_mem P hc m inOff inOff len).2 inOff len =
      memRegion (lc_hc_decrypt_mem P hc m inOff outOff len).2 outOff len ∧
    (lc_hc_decrypt_mem P hc m inOff inOff len).1 =
      (lc_hc_decrypt_mem P hc m inOff outOff len).1 ∧
    memRegion (lc_hc_encrypt_mem P hc m inOff inOff len).2 inOff len =
      (lc_hc_crypt P hc.ksst (memRegion m inOff len)).2 := by
  obtain ⟨a1, a2, a3⟩ :=
    lc_hc_crypt_mem_go_alias P hB len hc.ksst m inOff len le_rfl
  obtain ⟨d1, d2, d3⟩ :=
    lc_hc_crypt_mem_go_disjoint P hB len hc.ksst m inOff outOff len le_rfl
      hdisj
  simp only [lc_hc_encrypt_mem, lc_hc_decrypt_mem, lc_hc_crypt_mem,
    lc_hc_crypt_eq_byte P hB]
  refine ⟨?_, ?_, ?_, ?_, ?_, ?_⟩
  · rw [a2, d2]
  · rw [a1, d1, a2, d2]
  · rw [a1, d1, a2, d2]
  · rw [a2, d2]
  · rw [a1, d1]
  · rw [a2]

/-- Witness for C10 at concrete primitives, cryptor, memory and disjoint
offsets. -/
theorem c10_in_place_equivalence_witness :
    (0 < c2Prims.B ∧ ((0 : Nat) + 3 ≤ 8 ∨ (8 : Nat) + 3 ≤ 0)) ∧
    (memRegion (lc_hc_encrypt_mem c2Prims c2Hc0 (fun _ => 9) 0 0 3).2 0 3 =
      memRegion (lc_hc_encrypt_mem c2Prims c2Hc0 (fun _ => 9) 0 8 3).2 8 3 ∧
     (lc_hc_encrypt_mem c2Prims c2Hc0 (fun _ => 9) 0 0 3).1 =
      (lc_hc_encrypt_mem c2Prims c2Hc0 (fun _ => 9) 0 8 3).1 ∧
     lc_hc_encrypt_tag c2Prims
        (lc_hc_encrypt_mem c2Prims c2Hc0 (fun _ => 9) 0 0 3).1 1 =
      lc_hc_encrypt_tag c2Prims
        (lc_hc_encrypt_mem c2Prims c2Hc0 (fun _ => 9) 0 8 3).1 1 ∧
     memRegion (lc_hc_decrypt_mem c2Prims c2Hc0 (fun _ => 9) 0 0 3).2 0 3 =
      memRegion (lc_hc_decrypt_mem c2Prims c2Hc0 (fun _ => 9) 0 8 3).2 8 3 ∧
     (lc_hc_decrypt_mem c2Prims c2Hc0 (fun _ => 9) 0 0 3).1 =
      (lc_hc_decrypt_mem c2Prims c2Hc0 (fun _ => 9) 0 8 3).1 ∧
     memRegion (lc_hc_encrypt_mem c2Prims c2Hc0 (fun _ => 9) 0 0 3).2 0 3 =
      (lc_hc_crypt c2Prims c2Hc0.ksst (memRegion (fun _ => 9) 0 3)).2) :=
  ⟨⟨by decide, by decide⟩,
   c10_in_place_equivalence c2Prims (by decide) c2Hc0 (fun _ => 9) 0 8 3 1
     (by decide)⟩

end Leancrypto
